import Mathlib

/-!
Verification of the courtlight high-courts scraper against its specification.

The Python sources are shallowly embedded:
* `src/courtlight/highcourts/utils.py` (`download_file`) as `Courtlight.download_file`,
* `src/courtlight/highcourts/scraper.py` (`cases_from_page`, `fetch_cases`,
  `scrape_cases`) as `Courtlight.cases_from_page`, `Courtlight.fetch_cases_model`,
  `Courtlight.scrape_cases`,
* `src/courtlight/highcourts/populate_contents.py` (`populate_contents`) as
  `Courtlight.populate_contents` / `Courtlight.populate_contents_run`,
* the SQLAlchemy session (pending in-memory state vs committed store) as
  `Courtlight.Session`, with queries reading the working state (autoflush) and
  `commit` publishing it.

HTML documents are modelled structurally (rows / cells / elements with an
optional `href` attribute), HTTP bodies as byte lists, and the sha256 / text
extraction externals as function parameters.
-/

namespace Courtlight

/-- Calendar date as produced by `datetime.strptime(_, "%d/%m/%Y")`. -/
structure Date where
  year : Nat
  month : Nat
  day : Nat
deriving DecidableEq

/-- Boolean date comparison used only as the `ORDER BY date` sort key. -/
def dateLe (a b : Date) : Bool :=
  decide (a.year < b.year) ||
    (a.year == b.year &&
      (decide (a.month < b.month) || (a.month == b.month && decide (a.day ≤ b.day))))

/-- Gregorian leap-year rule, as validated by `datetime`. -/
def isLeap (y : Nat) : Bool :=
  (y % 4 == 0 && y % 100 != 0) || (y % 400 == 0)

/-- Number of days in a month, as validated by `datetime`. -/
def daysInMonth (y m : Nat) : Nat :=
  if m == 2 then (if isLeap y then 29 else 28)
  else if m == 4 || m == 6 || m == 9 || m == 11 then 30
  else 31

/-- Drops leading whitespace from a character list. -/
def dropWS : List Char → List Char
  | [] => []
  | c :: cs => if c.isWhitespace then dropWS cs else c :: cs

/-- Embedding of Python `str.strip()`: whitespace removed from both ends. -/
def trimChars (l : List Char) : List Char :=
  (dropWS (dropWS l).reverse).reverse

/-- Splits a character list on `/` separators (the split of `"%d/%m/%Y"`). -/
def splitSlash (l : List Char) : List (List Char) :=
  match l with
  | [] => [[]]
  | c :: cs =>
    match splitSlash cs with
    | [] => [[c]]
    | r :: rs => if c = '/' then [] :: r :: rs else (c :: r) :: rs

/-- Decimal value of a digit run. -/
def digitsToNat (l : List Char) : Nat :=
  l.foldl (fun acc c => acc * 10 + (c.toNat - 48)) 0

/-- True when the character list is a nonempty run of decimal digits. -/
def allDigits (l : List Char) : Bool :=
  !l.isEmpty && l.all (fun c => c.isDigit)

/-- Embedding of `datetime.strptime(s, "%d/%m/%Y")`: day and month of one or
two digits, a year of up to four digits, and calendar validity; any mismatch
raises (modelled as `none`). -/
def parseDate (s : String) : Option Date :=
  match splitSlash s.data with
  | [d, m, y] =>
    if allDigits d && d.length ≤ 2 && allDigits m && m.length ≤ 2 &&
        allDigits y && y.length ≤ 4 then
      let dn := digitsToNat d
      let mn := digitsToNat m
      let yn := digitsToNat y
      if 1 ≤ yn && 1 ≤ mn && mn ≤ 12 && 1 ≤ dn && dn ≤ daysInMonth yn mn then
        some { year := yn, month := mn, day := dn }
      else none
    else none
  | _ => none

/-- An HTML element inside a table cell: its optional `href` attribute and its
`text_content()`. -/
structure Elem where
  href : Option String
  textContent : String
deriving DecidableEq

/-- A table cell: its child elements and its `text_content()`. -/
structure Cell where
  children : List Elem
  textContent : String
deriving DecidableEq

/-- A table row of the results page (`tr`); `cells` are its child cells. -/
structure Row where
  cells : List Cell
deriving DecidableEq

/-- A parsed case record, the dict yielded by `cases_from_page`. -/
structure CaseRec where
  pdf_link : String
  case_number : String
  date : Date
  party : String
  judge_name : String
deriving DecidableEq

/-- Exceptions that can escape the page-parsing code: `IndexError` from
`tr[1]`, `tr[1][0]`, `tr[2]`, `tr[3]`, a `ValueError` from `strptime`, and a
portal page missing when a NEXT link is followed. -/
inductive ScrapeErr
  | indexError
  | dateError
  | missingPage
deriving DecidableEq

/-- Embedding of the body of the `for tr in ...` loop of `cases_from_page`:
`link = tr[1][0]` (raising `IndexError` when absent), then the `href` guard,
then `case_number`, the `strptime` date of `tr[2]`, and the party of `tr[3]`.
Returns `none` for a row skipped by the `href` guard. -/
def caseFromRow (jn : String) (tr : Row) : Except ScrapeErr (Option CaseRec) :=
  match tr.cells[1]? with
  | none => Except.error ScrapeErr.indexError
  | some cell1 =>
    match cell1.children[0]? with
    | none => Except.error ScrapeErr.indexError
    | some link =>
      match link.href with
      | none => Except.ok none
      | some pdf_link =>
        let case_number := String.mk (trimChars link.textContent.data)
        match tr.cells[2]? with
        | none => Except.error ScrapeErr.indexError
        | some cell2 =>
          match parseDate cell2.textContent with
          | none => Except.error ScrapeErr.dateError
          | some date =>
            match tr.cells[3]? with
            | none => Except.error ScrapeErr.indexError
            | some cell3 =>
              Except.ok (some { pdf_link := pdf_link, case_number := case_number,
                                date := date, party := cell3.textContent,
                                judge_name := jn })

/-- Embedding of `cases_from_page`: runs `caseFromRow` over the rows of the
page table, collecting the yielded records; an exception in any row escapes. -/
def cases_from_page (jn : String) (rows : List Row) : Except ScrapeErr (List CaseRec) :=
  match rows with
  | [] => Except.ok []
  | tr :: rest =>
    match caseFromRow jn tr with
    | Except.error e => Except.error e
    | Except.ok o =>
      match cases_from_page jn rest with
      | Except.error e => Except.error e
      | Except.ok cs =>
        match o with
        | some c => Except.ok (c :: cs)
        | none => Except.ok cs

/-- One results page of the portal fixture: its table rows, and whether a
`NEXT >>` anchor is present in the document. -/
structure Page where
  rows : List Row
  hasNext : Bool
deriving DecidableEq

/-- Concatenation of a list of lists (records accumulated in page order). -/
def joinAll : List (List α) → List α
  | [] => []
  | x :: xs => x ++ joinAll xs

/-- Embedding of the page-follow loop of `fetch_cases`: the head page is the
POST response; after yielding a page's records the loop stops unless a
`NEXT >>` link is present, in which case the GET of that link must resolve to
the next fixture page (an empty remainder models a dangling link). -/
def followPages (jn : String) : List Page → Except ScrapeErr (List CaseRec)
  | [] => Except.error ScrapeErr.missingPage
  | p :: rest =>
    match cases_from_page jn p.rows with
    | Except.error e => Except.error e
    | Except.ok cs =>
      if p.hasNext then
        match followPages jn rest with
        | Except.error e => Except.error e
        | Except.ok more => Except.ok (cs ++ more)
      else Except.ok cs

/-- Embedding of `fetch_cases` run against a fixture sequence of pages. -/
def fetch_cases_model (jn : String) (pages : List Page) : Except ScrapeErr (List CaseRec) :=
  followPages jn pages

/-- Records of one page when it parses cleanly (empty on a parse error). -/
def pageCases (jn : String) (p : Page) : List CaseRec :=
  match cases_from_page jn p.rows with
  | Except.ok cs => cs
  | Except.error _ => []

/-- Splits a byte stream as `response.content.read(32 * 1024)` does: maximal
chunks of 32 KiB until the stream is exhausted. -/
def chunkStream (bs : List Nat) : List (List Nat) :=
  if h : bs = [] then []
  else bs.take (32 * 1024) :: chunkStream (bs.drop (32 * 1024))
termination_by bs.length
decreasing_by
  simp only [List.length_drop]
  exact Nat.sub_lt (List.length_pos.mpr h) (by decide)

/-- Observable outcome of `download_file`: the chunks written in order, the
resulting file content, and the function's return value. -/
structure DownloadResult where
  chunks : List (List Nat)
  fileBytes : List Nat
  digest : Option (List Nat)
deriving DecidableEq

/-- Embedding of `utils.download_file`: the loop reads 32 KiB chunks and
writes each to the target file until `read` returns empty.  The Python body
contains no hash object and no `return` statement, so the digest component of
the result is `none`. -/
def download_file (body : List Nat) : DownloadResult :=
  { chunks := chunkStream body
    fileBytes := joinAll (chunkStream body)
    digest := none }

/-- Modelled from the spec: the `backoff` library is a third-party dependency
(not under `src/`); this is its `on_exception(expo, Exception, max_time=120,
jitter=full_jitter)` loop as applied to `fetch_cases` and `download_file`.
`attempt i` is the outcome of try number `i` (any raised exception, network or
parse alike, is the `error` case), `delay i` is the jittered sleep after a
failed try (full jitter draws it from `[0, base * 2 ^ i]`, so it is an
arbitrary function here), `elapsed` the wall clock consumed so far, and
`maxTime` the budget: while a try fails and the budget is not exhausted the
loop sleeps and retries; once `maxTime ≤ elapsed`, the failure propagates.
`fuel` bounds the recursion (full jitter permits zero delays, so the number of
tries inside the budget is unbounded in general). -/
def backoffRetry {E A : Type} (attempt : Nat → Except E A) (delay : Nat → Nat)
    (maxTime : Nat) : Nat → Nat → Nat → Except E A
  | 0, i, _ => attempt i
  | fuel + 1, i, elapsed =>
    match attempt i with
    | Except.ok a => Except.ok a
    | Except.error e =>
      if maxTime ≤ elapsed then Except.error e
      else backoffRetry attempt delay maxTime fuel (i + 1) (elapsed + delay i)

/-- The retry-wrapped `download_file`: `bodies i` is the response body offered
by the network on try `i` (or the exception it raises). -/
def download_file_retry {E : Type} (bodies : Nat → Except E (List Nat))
    (delay : Nat → Nat) (fuel : Nat) : Except E DownloadResult :=
  backoffRetry (fun i => (bodies i).map download_file) delay 120 fuel 0 0

/-- One try of `fetch_cases`: the network either raises (left errors) or
serves a fixture page sequence, whose parse may itself raise (right errors,
including date-format failures) inside the decorated operation. -/
def fetch_cases_attempt {E : Type} (jn : String)
    (oracle : Nat → Except E (List Page)) (i : Nat) :
    Except (E ⊕ ScrapeErr) (List CaseRec) :=
  match oracle i with
  | Except.error e => Except.error (Sum.inl e)
  | Except.ok pages =>
    match fetch_cases_model jn pages with
    | Except.error pe => Except.error (Sum.inr pe)
    | Except.ok cs => Except.ok cs

/-- The retry-wrapped `fetch_cases`. -/
def fetch_cases_retry {E : Type} (jn : String)
    (oracle : Nat → Except E (List Page)) (delay : Nat → Nat) (fuel : Nat) :
    Except (E ⊕ ScrapeErr) (List CaseRec) :=
  backoffRetry (fetch_cases_attempt jn oracle) delay 120 fuel 0 0

/-- Row of the `judge` table (`orm.Judge`). -/
structure Judge where
  id : Nat
  name : String
deriving DecidableEq

/-- Row of the `judgement` table (`orm.Judgement`); `judges` is this row's
side of the `judgement_authorship` association, in append order. -/
structure Judgement where
  id : Nat
  pdf_link : String
  date : Date
  text_content : Option String
  text_content_hash : Option String
  judges : List Nat
deriving DecidableEq

/-- Row of the `case` table (`orm.Case`). -/
structure CaseRow where
  id : Nat
  case_number : String
  party : String
  judgement_id : Nat
deriving DecidableEq

/-- Relational store state: the three tables plus the primary-key allocator
(rows are appended in insertion order, as a sequential scan would return
them). -/
structure DB where
  judges : List Judge
  judgements : List Judgement
  cases : List CaseRow
  nextId : Nat
deriving DecidableEq

/-- The empty store. -/
def emptyDB : DB := { judges := [], judgements := [], cases := [], nextId := 0 }

/-- A SQLAlchemy session: `persisted` is the committed database, `working`
the state queries observe (committed data plus flushed pending mutations). -/
structure Session where
  persisted : DB
  working : DB
deriving DecidableEq

/-- A session freshly opened on a store. -/
def Session.open (db : DB) : Session := { persisted := db, working := db }

/-- Embedding of `query(Judge).filter_by(name=name).first()`. -/
def findJudgeByName (db : DB) (n : String) : Option Judge :=
  db.judges.find? (fun j => j.name == n)

/-- Embedding of `query(Judgement).filter_by(pdf_link=pdf_link).first()`. -/
def findJudgementByLink (db : DB) (u : String) : Option Judgement :=
  db.judgements.find? (fun jm => jm.pdf_link == u)

/-- Embedding of `query(exists().where(Case.case_number == cn)).scalar()`. -/
def caseNumberExists (db : DB) (cn : String) : Bool :=
  db.cases.any (fun c => c.case_number == cn)

/-- Embedding of `query(Judgement).filter_by(text_content_hash=h).first()`. -/
def findJudgementByHash (db : DB) (h : String) : Option Judgement :=
  db.judgements.find? (fun jm => jm.text_content_hash == some h)

/-- First judgement row with the given primary key. -/
def findJudgementById (l : List Judgement) (i : Nat) : Option Judgement :=
  l.find? (fun jm => jm.id == i)

/-- The fresh Case row `orm.Case(case_number=..., party=..., judgement=...)`
with primary key `nid`, owned by judgement `jmId`. -/
def newCaseRow (nid : Nat) (r : CaseRec) (jmId : Nat) : CaseRow :=
  { id := nid, case_number := r.case_number, party := r.party, judgement_id := jmId }

/-- Second half of the record-reconciliation body: create the Case row owned
by judgement `jmId` unless its `case_number` already exists (then it is
skipped). -/
def addCaseIfNew (db1 : DB) (r : CaseRec) (jmId : Nat) : DB :=
  if caseNumberExists db1 r.case_number then db1
  else
    { db1 with cases := db1.cases ++ [newCaseRow db1.nextId r jmId]
               nextId := db1.nextId + 1 }

/-- The fresh Judgement row `orm.Judgement(pdf_link=..., date=..., judges=[judge])`
built from a record, authored by judge `jid`, with primary key `nid`. -/
def newJudgementRow (nid : Nat) (r : CaseRec) (jid : Nat) : Judgement :=
  { id := nid, pdf_link := r.pdf_link, date := r.date,
    text_content := none, text_content_hash := none, judges := [jid] }

/-- The fresh Judge row `orm.Judge(name=name)` with primary key `nid`. -/
def newJudgeRow (nid : Nat) (nm : String) : Judge :=
  { id := nid, name := nm }

/-- Embedding of the body of the `async for case_data in fetch_cases(...)`
loop of `scrape_cases`, for the judge resolved to primary key `jid`: create
the Judgement if its `pdf_link` is absent (authored by this judge), otherwise
append this judge to its authors unless already present; then create the Case
unless its `case_number` already exists. -/
def processRecord (jid : Nat) (r : CaseRec) (db : DB) : DB :=
  match findJudgementByLink db r.pdf_link with
  | none =>
    addCaseIfNew
      { db with judgements := db.judgements ++ [newJudgementRow db.nextId r jid]
                nextId := db.nextId + 1 }
      r db.nextId
  | some jm =>
    addCaseIfNew
      (if jid ∈ jm.judges then db
       else
        { db with
            judgements := db.judgements.map (fun x =>
              if x.id == jm.id then { x with judges := x.judges ++ [jid] } else x) })
      r jm.id

/-- The stream `fetch_cases` yields for one judge of the directory. -/
structure EntityCrawl where
  judge_name : String
  records : List CaseRec
deriving DecidableEq

/-- Embedding of the body of the `async for name, judge_id in fetch_judges()`
loop of `scrape_cases`: look up the Judge by name, creating it if absent, then
reconcile every record of this judge's crawl. -/
def processEntity (e : EntityCrawl) (db : DB) : DB :=
  match findJudgeByName db e.judge_name with
  | some j => e.records.foldl (fun d r => processRecord j.id r d) db
  | none =>
    e.records.foldl (fun d r => processRecord db.nextId r d)
      { db with judges := db.judges ++ [newJudgeRow db.nextId e.judge_name]
                nextId := db.nextId + 1 }

/-- Embedding of `scrape_cases`: reconcile every entity of the run against the
session's working state, then `db_session.commit()` once at the end. -/
def scrape_cases (input : List EntityCrawl) (s : Session) : Session :=
  let w := input.foldl (fun d e => processEntity e d) s.working
  { persisted := w, working := w }

/-- A run of `scrape_cases` that raises after fully processing the first `k`
entities and the first `nrec` records of entity `k`: the exception propagates
before the final `db_session.commit()` line runs, so only the session's
in-memory working state carries the run's mutations. -/
def scrape_cases_interrupted (input : List EntityCrawl) (k nrec : Nat) (s : Session) :
    Session :=
  let w1 := (input.take k).foldl (fun d e => processEntity e d) s.working
  let w2 :=
    match input[k]? with
    | none => w1
    | some e => processEntity { judge_name := e.judge_name, records := e.records.take nrec } w1
  { persisted := s.persisted, working := w2 }

/-- Insertion step of the `ORDER BY date` sort. -/
def insertByDate (j : Judgement) : List Judgement → List Judgement
  | [] => [j]
  | x :: xs => if dateLe j.date x.date then j :: x :: xs else x :: insertByDate j xs

/-- The `ORDER BY date` sort of the content-population query. -/
def sortByDate : List Judgement → List Judgement
  | [] => []
  | x :: xs => insertByDate x (sortByDate xs)

/-- Embedding of `query(Judgement).filter(text_content == None).order_by(date)`
evaluated when the loop starts: the primary keys of the judgements to process,
in date order. -/
def pendingIds (db : DB) : List Nat :=
  (sortByDate (db.judgements.filter (fun j => j.text_content == none))).map
    (fun j => j.id)

/-- Row update of `judgement.text_content = text; judgement.text_content_hash
= hash.hexdigest()`: stores text and hash on the row with `j`'s primary key,
leaving every other row unchanged. -/
def setContentRow (j : Judgement) (t hsh : String) (x : Judgement) : Judgement :=
  if x.id == j.id then
    { x with text_content := some t, text_content_hash := some hsh }
  else x

/-- Row update of `case.judgement = other_judgement`: repoints the cases owned
by `j` at the judgement with primary key `oid`. -/
def reassignCaseRow (j : Judgement) (oid : Nat) (c : CaseRow) : CaseRow :=
  if c.judgement_id == j.id then { c with judgement_id := oid } else c

/-- Embedding of the per-document logic of `populate_contents` after the text
`t` of judgement `j` has been extracted: hash the text; if another judgement
already carries this hash, point every case of `j` at it and delete `j`,
otherwise store the text and hash on `j`.  One call is one commit boundary
(`session.commit()` runs at the end of each loop iteration). -/
def dedupStep (hashFn : String → String) (db : DB) (j : Judgement) (t : String) : DB :=
  match findJudgementByHash db (hashFn t) with
  | some other =>
    { db with cases := db.cases.map (reassignCaseRow j other.id)
              judgements := db.judgements.filter (fun x => x.id != j.id) }
  | none =>
    { db with judgements := db.judgements.map (setContentRow j t (hashFn t)) }

/-- One loop iteration of `populate_contents` when download and text
extraction succeed; `pdfText` composes `download_file` and `pdf_to_text` (one
file, hence one text, per reference URL), `hashFn` is sha256 over the
extracted text. -/
def processDoc (pdfText : String → String) (hashFn : String → String)
    (db : DB) (jid : Nat) : DB :=
  match findJudgementById db.judgements jid with
  | none => db
  | some j => dedupStep hashFn db j (pdfText j.pdf_link)

/-- One loop iteration of `populate_contents` with a fallible pipeline:
`pdfTextE` raises (after the download retry budget, or from `pdftotext`)
before any mutation of this iteration happens. -/
def processDocE {E : Type} (pdfTextE : String → Except E String)
    (hashFn : String → String) (db : DB) (jid : Nat) : Except E DB :=
  match findJudgementById db.judgements jid with
  | none => Except.ok db
  | some j => (pdfTextE j.pdf_link).map (fun t => dedupStep hashFn db j t)

/-- The document loop of `populate_contents`: each successful iteration is
committed; there is no `try` around the body, so an exception propagates out
of the loop, carrying the store in its last committed state. -/
def goPopulate {E : Type} (pdfTextE : String → Except E String)
    (hashFn : String → String) : List Nat → DB → Except (E × DB) DB
  | [], db => Except.ok db
  | jid :: rest, db =>
    match processDocE pdfTextE hashFn db jid with
    | Except.error e => Except.error (e, db)
    | Except.ok db' => goPopulate pdfTextE hashFn rest db'

/-- Embedding of `populate_contents` with a fallible per-document pipeline. -/
def populate_contents_run {E : Type} (pdfTextE : String → Except E String)
    (hashFn : String → String) (db : DB) : Except (E × DB) DB :=
  goPopulate pdfTextE hashFn (pendingIds db) db

/-- Embedding of `populate_contents` when every document processes
successfully. -/
def populate_contents (pdfText : String → String) (hashFn : String → String)
    (db : DB) : DB :=
  (pendingIds db).foldl (fun d jid => processDoc pdfText hashFn d jid) db

/-- The committed store after the first `k` documents of the pass (the state
visible at the commit boundary following document `k`). -/
def popStateAt (pdfText : String → String) (hashFn : String → String)
    (db : DB) (k : Nat) : DB :=
  ((pendingIds db).take k).foldl (fun d jid => processDoc pdfText hashFn d jid) db

/-- The judgement for `link` exists and has judge `jid` among its authors. -/
def LinkFact (db : DB) (jid : Nat) (link : String) : Prop :=
  ∃ jm, findJudgementByLink db link = some jm ∧ jid ∈ jm.judges

/-- The case number already exists in the store. -/
def CaseFact (db : DB) (cn : String) : Prop :=
  caseNumberExists db cn = true

/-- Everything the listing crawl establishes for one entity: its Judge row
exists, and every record's Judgement carries that Judge as author and every
record's Case number exists. -/
def EntityDone (db : DB) (e : EntityCrawl) : Prop :=
  ∃ j, findJudgeByName db e.judge_name = some j ∧
    ∀ r ∈ e.records, LinkFact db j.id r.pdf_link ∧ CaseFact db r.case_number

/-- Pointwise evolution of a judgement row during the listing phase: all
scalar columns are frozen, authorship may only grow. -/
def JmLe (x y : Judgement) : Prop :=
  y.id = x.id ∧ y.pdf_link = x.pdf_link ∧ y.date = x.date ∧
  y.text_content = x.text_content ∧ y.text_content_hash = x.text_content_hash ∧
  ∃ ext, y.judges = x.judges ++ ext

/-- Store growth during the listing phase: judges and cases are only
appended; existing judgement rows evolve pointwise by `JmLe`, with new rows
appended after them. -/
structure DbLe (db db' : DB) : Prop where
  judges_ext : ∃ ext, db'.judges = db.judges ++ ext
  jmts_ext : ∃ pre ext, db'.judgements = pre ++ ext ∧ List.Forall₂ JmLe db.judgements pre
  cases_ext : ∃ ext, db'.cases = db.cases ++ ext

/-- Store sanity for the listing phase: distinct primary keys for judges and
judgements, unique reference URLs, duplicate-free author lists, and primary
keys below the allocator. -/
def SInv (db : DB) : Prop :=
  List.Pairwise (fun x y : Judge => x.id ≠ y.id) db.judges ∧
  List.Pairwise (fun x y : Judgement => x.id ≠ y.id) db.judgements ∧
  List.Pairwise (fun x y : Judgement => x.pdf_link ≠ y.pdf_link) db.judgements ∧
  (∀ jm ∈ db.judgements, jm.judges.Nodup) ∧
  (∀ j ∈ db.judges, j.id < db.nextId) ∧
  (∀ jm ∈ db.judgements, jm.id < db.nextId)

/-- Judgement primary keys are pairwise distinct. -/
def UIds (db : DB) : Prop :=
  List.Pairwise (fun x y : Judgement => x.id ≠ y.id) db.judgements

/-- Every case references a judgement that exists (no dangling ownership). -/
def NoDangling (db : DB) : Prop :=
  ∀ c ∈ db.cases, ∃ jm ∈ db.judgements, jm.id = c.judgement_id

/-- The still-pending document list is duplicate-free, each pending id has a
live row that is still untouched (no content, no hash), and every pending
document other than the tracked pair hashes to something other than `hsh`. -/
def PendOK (pdfText hashFn : String → String) (aid bid : Nat) (hsh : String)
    (l : List Nat) (db : DB) : Prop :=
  l.Nodup ∧
  ∀ i ∈ l, ∃ row ∈ db.judgements, row.id = i ∧ row.text_content = none ∧
    row.text_content_hash = none ∧
    (i ≠ aid → i ≠ bid → hashFn (pdfText row.pdf_link) ≠ hsh)

/-- The tracked duplicate pair before either member is processed: both rows
are intact, both still pending, and no row in the store carries their hash. -/
def Phase0 (A B : Judgement) (hsh : String) (db0 db : DB) (l : List Nat) : Prop :=
  A ∈ db.judgements ∧ B ∈ db.judgements ∧ A.id ∈ l ∧ B.id ∈ l ∧
  (∀ jm ∈ db.judgements, jm.text_content_hash ≠ some hsh) ∧
  (∀ c ∈ db0.cases, (c.judgement_id = A.id ∨ c.judgement_id = B.id) → c ∈ db.cases)

/-- The row of the pair member that was processed first, with its content and
hash stored. -/
def SurvRow (x : Judgement) (t hsh : String) : Judgement :=
  { x with text_content := some t, text_content_hash := some hsh }

/-- The tracked pair after its first member `S` was processed (content
stored) and before the second member `L` is: `S`'s updated row is the only
one carrying the hash, `L` is intact and still pending, and the pair's cases
are untouched. -/
def Phase1 (S L : Judgement) (t hsh : String) (db0 db : DB) (l : List Nat) : Prop :=
  SurvRow S t hsh ∈ db.judgements ∧ L ∈ db.judgements ∧ L.id ∈ l ∧ S.id ∉ l ∧
  (∀ jm ∈ db.judgements, jm.text_content_hash = some hsh → jm.id = S.id) ∧
  (∀ c ∈ db0.cases, (c.judgement_id = S.id ∨ c.judgement_id = L.id) → c ∈ db.cases)

/-- The tracked pair after both members were processed: survivor `S` keeps
its stored content, `L` is deleted, and every case the pair owned now belongs
to `S`. -/
def Phase2 (S L : Judgement) (t hsh : String) (db0 db : DB) (l : List Nat) : Prop :=
  SurvRow S t hsh ∈ db.judgements ∧ S.id ∉ l ∧ L.id ∉ l ∧
  (∀ jm ∈ db.judgements, jm.id ≠ L.id) ∧
  (∀ jm ∈ db.judgements, jm.text_content_hash = some hsh → jm.id = S.id) ∧
  (∀ c ∈ db0.cases, (c.judgement_id = S.id ∨ c.judgement_id = L.id) →
    { c with judgement_id := S.id } ∈ db.cases)

/-- What the content-dedup claim asserts of the final store: a single row for
survivor `S` carries the text and hash, loser `L` is gone, and every case the
pair owned in `db0` is owned by `S`. -/
def Survives (db0 dbF : DB) (S L : Judgement) (t hsh : String) : Prop :=
  (∃ jm ∈ dbF.judgements, jm.id = S.id ∧ jm.pdf_link = S.pdf_link ∧
    jm.text_content = some t ∧ jm.text_content_hash = some hsh) ∧
  (∀ jm ∈ dbF.judgements, jm.id ≠ L.id) ∧
  (∀ c ∈ db0.cases, (c.judgement_id = S.id ∨ c.judgement_id = L.id) →
    { c with judgement_id := S.id } ∈ dbF.cases)

/-- Master invariant of the content-population fold, with `l` the documents
still to process. -/
def PopInv (pdfText hashFn : String → String) (A B : Judgement) (t hsh : String)
    (db0 : DB) (l : List Nat) (db : DB) : Prop :=
  UIds db ∧ NoDangling db ∧ PendOK pdfText hashFn A.id B.id hsh l db ∧
  (Phase0 A B hsh db0 db l ∨ Phase1 A B t hsh db0 db l ∨ Phase1 B A t hsh db0 db l ∨
   Phase2 A B t hsh db0 db l ∨ Phase2 B A t hsh db0 db l)

/-- A presentational header row whose cells hold plain text: its second cell
has no child elements, so `tr[1][0]` raises `IndexError`. -/
def headerRow : Row :=
  { cells := [ { children := [], textContent := "S.No." },
               { children := [], textContent := "Case No." },
               { children := [], textContent := "Date" },
               { children := [], textContent := "Party" } ] }

/-- A well-formed result row: the second cell's first child is the PDF
anchor. -/
def goodRow : Row :=
  { cells := [ { children := [], textContent := "1" },
               { children := [{ href := some "http://lobis.nic.in/doc1.pdf",
                                textContent := " WP 123/2020 " }],
                 textContent := "WP 123/2020" },
               { children := [], textContent := "05/03/2018" },
               { children := [], textContent := "STATE vs. DOE" } ] }

/-- A row whose second cell's first child carries no `href` (its anchor, if
any, is not the first child): skipped by the guard. -/
def skipRow : Row :=
  { cells := [ { children := [], textContent := "2" },
               { children := [{ href := none, textContent := "WP 9/2018" }],
                 textContent := "WP 9/2018" },
               { children := [], textContent := "06/03/2018" },
               { children := [], textContent := "ROE vs. STATE" } ] }

/-- Store fixture for the content-population pass: two judgements lacking
content whose URLs will extract identical text, each owning one case. -/
def dbPair : DB :=
  { judges := []
    judgements :=
      [ { id := 1, pdf_link := "u1", date := { year := 2020, month := 1, day := 1 },
          text_content := none, text_content_hash := none, judges := [] },
        { id := 2, pdf_link := "u2", date := { year := 2020, month := 1, day := 2 },
          text_content := none, text_content_hash := none, judges := [] } ]
    cases :=
      [ { id := 10, case_number := "c1", party := "p1", judgement_id := 1 },
        { id := 11, case_number := "c2", party := "p2", judgement_id := 2 } ]
    nextId := 12 }

/-- The pending row for reference URL `u1` of `dbPair`. -/
def jmtU1 : Judgement :=
  { id := 1, pdf_link := "u1", date := { year := 2020, month := 1, day := 1 },
    text_content := none, text_content_hash := none, judges := [] }

/-- The pending row for reference URL `u2` of `dbPair`. -/
def jmtU2 : Judgement :=
  { id := 2, pdf_link := "u2", date := { year := 2020, month := 1, day := 2 },
    text_content := none, text_content_hash := none, judges := [] }

/-- A text-extraction pipeline whose first URL raises (retry budget
exhausted), modelling an unrecovered per-document error. -/
def failingPdfText : String → Except Nat String :=
  fun u => if u == "u1" then Except.error 7 else Except.ok "TEXT"

/-- The record judge A's crawl yields for document `u1`. -/
def recA : CaseRec :=
  { pdf_link := "u1", case_number := "c1",
    date := { year := 2018, month := 3, day := 5 },
    party := "STATE vs. DOE", judge_name := "JUSTICE A" }

/-- The record judge B's crawl yields for the same document `u1`. -/
def recB : CaseRec :=
  { pdf_link := "u1", case_number := "c1",
    date := { year := 2018, month := 3, day := 5 },
    party := "STATE vs. DOE", judge_name := "JUSTICE B" }

/-- Listing fixture: two judges whose crawls both surface the document
`u1`. -/
def crawlA : EntityCrawl :=
  { judge_name := "JUSTICE A", records := [recA] }

/-- Second judge of the listing fixture, also surfacing `u1`. -/
def crawlB : EntityCrawl :=
  { judge_name := "JUSTICE B", records := [recB] }

/-- First fixture page: one good row and a `NEXT >>` link. -/
def pg1 : Page := { rows := [goodRow], hasNext := true }

/-- Last fixture page: one skipped row, no `NEXT >>` link. -/
def pg2 : Page := { rows := [skipRow, goodRow], hasNext := false }

/-- The record parsed from `goodRow`. -/
def goodRec : CaseRec :=
  { pdf_link := "http://lobis.nic.in/doc1.pdf", case_number := "WP 123/2020",
    date := { year := 2018, month := 3, day := 5 }, party := "STATE vs. DOE",
    judge_name := "JUSTICE A" }

/-- A record for an already-present reference URL carrying a different
date. -/
def recC10 : CaseRec :=
  { pdf_link := "u1", case_number := "c9",
    date := { year := 2021, month := 5, day := 5 }, party := "X vs. Y",
    judge_name := "JUSTICE A" }

/-! ### General helper lemmas -/

theorem joinAll_cons (x : List α) (xs : List (List α)) :
    joinAll (x :: xs) = x ++ joinAll xs := rfl

theorem chunkStream_nil : chunkStream [] = [] := by
  rw [chunkStream]
  simp

theorem chunkStream_cons (bs : List Nat) (h : bs ≠ []) :
    chunkStream bs = bs.take (32 * 1024) :: chunkStream (bs.drop (32 * 1024)) := by
  rw [chunkStream]
  simp [h]

theorem chunkStream_join : ∀ (n : Nat) (bs : List Nat), bs.length ≤ n →
    joinAll (chunkStream bs) = bs := by
  intro n
  induction n with
  | zero =>
    intro bs hb
    have hnil : bs = [] := List.eq_nil_of_length_eq_zero (Nat.le_zero.mp hb)
    subst hnil
    rw [chunkStream_nil]
    rfl
  | succ n ih =>
    intro bs hb
    by_cases h : bs = []
    · subst h
      rw [chunkStream_nil]
      rfl
    · have hpos : 0 < bs.length := List.length_pos.mpr h
      have hd : (bs.drop (32 * 1024)).length ≤ n := by
        simp only [List.length_drop]
        omega
      rw [chunkStream_cons bs h, joinAll_cons, ih _ hd, List.take_append_drop]

theorem chunkStream_chunks : ∀ (n : Nat) (bs : List Nat), bs.length ≤ n →
    ∀ c ∈ chunkStream bs, c ≠ [] ∧ c.length ≤ 32 * 1024 := by
  intro n
  induction n with
  | zero =>
    intro bs hb c hc
    have hnil : bs = [] := List.eq_nil_of_length_eq_zero (Nat.le_zero.mp hb)
    subst hnil
    rw [chunkStream_nil] at hc
    cases hc
  | succ n ih =>
    intro bs hb c hc
    by_cases h : bs = []
    · subst h
      rw [chunkStream_nil] at hc
      cases hc
    · have hpos : 0 < bs.length := List.length_pos.mpr h
      rw [chunkStream_cons bs h] at hc
      rcases List.mem_cons.mp hc with rfl | hmem
      · constructor
        · intro htk
          have := congrArg List.length htk
          simp only [List.length_take, List.length_nil] at this
          omega
        · simp only [List.length_take]
          omega
      · exact ih (bs.drop (32 * 1024)) (by simp only [List.length_drop]; omega) c hmem

theorem chunkStream_dropLast : ∀ (n : Nat) (bs : List Nat), bs.length ≤ n →
    ∀ c ∈ (chunkStream bs).dropLast, c.length = 32 * 1024 := by
  intro n
  induction n with
  | zero =>
    intro bs hb c hc
    have hnil : bs = [] := List.eq_nil_of_length_eq_zero (Nat.le_zero.mp hb)
    subst hnil
    rw [chunkStream_nil] at hc
    cases hc
  | succ n ih =>
    intro bs hb c hc
    by_cases h : bs = []
    · subst h
      rw [chunkStream_nil] at hc
      cases hc
    · have hpos : 0 < bs.length := List.length_pos.mpr h
      rw [chunkStream_cons bs h] at hc
      cases ht : chunkStream (bs.drop (32 * 1024)) with
      | nil =>
        rw [ht] at hc
        cases hc
      | cons y ys =>
        rw [ht] at hc
        have hsplit : (bs.take (32 * 1024) :: y :: ys).dropLast =
            bs.take (32 * 1024) :: (y :: ys).dropLast := rfl
        rw [hsplit] at hc
        rcases List.mem_cons.mp hc with rfl | hmem
        · have hdne : bs.drop (32 * 1024) ≠ [] := by
            intro hdnil
            rw [hdnil, chunkStream_nil] at ht
            exact List.cons_ne_nil y ys ht.symm
          have hlen : 32 * 1024 < bs.length := by
            by_contra hle
            push_neg at hle
            exact hdne (List.drop_eq_nil_of_le hle)
          simp only [List.length_take]
          omega
        · rw [← ht] at hmem
          exact ih (bs.drop (32 * 1024)) (by simp only [List.length_drop]; omega) c hmem

theorem backoffRetry_allFail {E A : Type} (attempt : Nat → Except E A)
    (delay : Nat → Nat) (mt : Nat) (e : E)
    (hall : ∀ n, attempt n = Except.error e) :
    ∀ (fuel i elapsed : Nat),
      backoffRetry attempt delay mt fuel i elapsed = Except.error e := by
  intro fuel
  induction fuel with
  | zero =>
    intro i el
    simp [backoffRetry, hall i]
  | succ fuel ih =>
    intro i el
    simp only [backoffRetry, hall i]
    by_cases h : mt ≤ el
    · simp [h]
    · simp [h, ih]

theorem forall2_of_map (l : List α) (f : α → α) (R : α → α → Prop)
    (h : ∀ x ∈ l, R x (f x)) : List.Forall₂ R l (l.map f) := by
  induction l with
  | nil => exact List.Forall₂.nil
  | cons a l ih =>
    exact List.Forall₂.cons (h a (List.mem_cons_self a l))
      (ih (fun x hx => h x (List.mem_cons_of_mem a hx)))

theorem forall2_refl_of (l : List α) (R : α → α → Prop) (h : ∀ x ∈ l, R x x) :
    List.Forall₂ R l l := by
  have hm := forall2_of_map l id R (by simpa using h)
  simpa using hm

/-! ### C1: download streaming -/

/-- C1 counterexample: the claim says `download_file` returns the content
digest on success, but the function hashes nothing and returns `None`; at the
concrete body `[1, 2, 3]` its result carries no digest. -/
theorem C1_counterexample :
    (download_file [1, 2, 3]).digest = none ∧
    ∀ d : List Nat, (download_file [1, 2, 3]).digest ≠ some d :=
  ⟨rfl, fun _ h => Option.noConfusion h⟩

/-- C1 (amended): for every URL and destination path, the download operation
streams the response body to the destination in 32 KiB chunks (every written
chunk is nonempty and at most 32 KiB, and every chunk except possibly the
last is exactly 32 KiB; their concatenation is the full body), but it does
not hash the bytes and returns no digest — hashing happens later, over the
extracted text, in the content-population pass. -/
theorem C1_download_streams_without_digest (body : List Nat) :
    (download_file body).fileBytes = body ∧
    (download_file body).digest = none ∧
    (∀ c ∈ (download_file body).chunks, c ≠ [] ∧ c.length ≤ 32 * 1024) ∧
    (∀ c ∈ (download_file body).chunks.dropLast, c.length = 32 * 1024) :=
  ⟨chunkStream_join body.length body le_rfl, rfl,
   chunkStream_chunks body.length body le_rfl,
   chunkStream_dropLast body.length body le_rfl⟩

/-- C1 witness: the amended theorem applied at the body `[1, 2, 3]`. -/
theorem C1_witness :
    (download_file [1, 2, 3]).fileBytes = [1, 2, 3] ∧
    (download_file [1, 2, 3]).digest = none :=
  ⟨(C1_download_streams_without_digest [1, 2, 3]).1,
   (C1_download_streams_without_digest [1, 2, 3]).2.1⟩

/-! ### C4: listing-phase commit boundary -/

/-- C4: during the listing phase all mutations are committed exactly once at
the end on success (the committed store then equals the fully folded working
state); a run interrupted after any prefix of entities and records has not
committed, so the persisted store still holds exactly its pre-run
contents. -/
theorem C4_single_commit_at_end (input : List EntityCrawl) (k nrec : Nat)
    (s : Session) :
    (scrape_cases_interrupted input k nrec s).persisted = s.persisted ∧
    (scrape_cases input s).persisted = (scrape_cases input s).working ∧
    (scrape_cases input s).persisted =
      input.foldl (fun d e => processEntity e d) s.working :=
  ⟨rfl, rfl, rfl⟩

/-! ### C5: content-pass error behaviour -/

/-- C5 counterexample: the claim says an unrecovered per-document error is
logged and the pass continues with the next document; on a store with two
pending judgements where the first document's pipeline raises, the pass
instead aborts — the raised error propagates and no judgement (in particular
not the second one) is populated. -/
theorem C5_counterexample :
    populate_contents_run failingPdfText (fun t => t) dbPair =
      Except.error (7, dbPair) ∧
    (∀ jm ∈ dbPair.judgements, jm.text_content = none) := by
  constructor
  · rfl
  · decide

/-- C5 (amended): an unrecovered error while processing one document (after
retry-budget exhaustion) propagates out of `populate_contents` and aborts the
rest of the pass; because each earlier document was committed individually,
the store keeps exactly the state committed before the failing document
(partial content coverage arises from the per-document commits, not from
skip-and-continue). -/
theorem C5_error_aborts_pass {E : Type} (pdfTextE : String → Except E String)
    (hashFn : String → String) (db db' : DB) (jid : Nat) (rest : List Nat)
    (e : E) :
    (processDocE pdfTextE hashFn db jid = Except.error e →
      goPopulate pdfTextE hashFn (jid :: rest) db = Except.error (e, db)) ∧
    (processDocE pdfTextE hashFn db jid = Except.ok db' →
      goPopulate pdfTextE hashFn (jid :: rest) db =
        goPopulate pdfTextE hashFn rest db') := by
  constructor
  · intro h
    simp [goPopulate, h]
  · intro h
    simp [goPopulate, h]

/-- C5 witness: the amended theorem applied to the two-judgement store whose
first document raises. -/
theorem C5_witness :
    processDocE failingPdfText (fun t => t) dbPair 1 = Except.error 7 ∧
    goPopulate failingPdfText (fun t => t) [1, 2] dbPair =
      Except.error (7, dbPair) :=
  ⟨rfl, (C5_error_aborts_pass failingPdfText (fun t => t) dbPair dbPair 1 [2] 7).1 rfl⟩

/-! ### C6: retry policy -/

/-- C6: every exception raised inside the retry-wrapped network operations
(`fetch_cases`, `download_file`) is retried uniformly — the loop never
inspects the error, so parse and date-format failures are treated exactly
like network errors — under the 120-second budget: an attempt that fails
with the budget already consumed propagates the failure; an always-failing
operation propagates its error; an operation that fails once and then
succeeds within the budget returns its success; `download_file` under an
always-raising network propagates; `fetch_cases` whose served pages always
fail to parse propagates the parse error. -/
theorem C6_retry_policy :
    (∀ (E A : Type) (attempt : Nat → Except E A) (delay : Nat → Nat) (e : E)
        (fuel i elapsed : Nat), (∀ n, attempt n = Except.error e) →
        backoffRetry attempt delay 120 fuel i elapsed = Except.error e) ∧
    (∀ (E A : Type) (attempt : Nat → Except E A) (delay : Nat → Nat) (e : E)
        (a : A), attempt 0 = Except.error e → attempt 1 = Except.ok a →
        backoffRetry attempt delay 120 2 0 0 = Except.ok a) ∧
    (∀ (E A : Type) (attempt : Nat → Except E A) (delay : Nat → Nat) (e : E)
        (fuel i elapsed : Nat), attempt i = Except.error e → 120 ≤ elapsed →
        backoffRetry attempt delay 120 (fuel + 1) i elapsed = Except.error e) ∧
    (∀ (E : Type) (bodies : Nat → Except E (List Nat)) (delay : Nat → Nat)
        (e : E) (fuel : Nat), (∀ n, bodies n = Except.error e) →
        download_file_retry bodies delay fuel = Except.error e) ∧
    (∀ (E : Type) (jn : String) (oracle : Nat → Except E (List Page))
        (delay : Nat → Nat) (pe : ScrapeErr) (pages : List Page) (fuel : Nat),
        (∀ n, oracle n = Except.ok pages) →
        fetch_cases_model jn pages = Except.error pe →
        fetch_cases_retry jn oracle delay fuel = Except.error (Sum.inr pe)) := by
  refine ⟨?_, ?_, ?_, ?_, ?_⟩
  · intro E A attempt delay e fuel i el hall
    exact backoffRetry_allFail attempt delay 120 e hall fuel i el
  · intro E A attempt delay e a h0 h1
    simp [backoffRetry, h0, h1]
  · intro E A attempt delay e fuel i el hi hel
    simp [backoffRetry, hi, hel]
  · intro E bodies delay e fuel hall
    exact backoffRetry_allFail _ delay 120 e (fun n => by rw [hall n]; rfl) fuel 0 0
  · intro E jn oracle delay pe pages fuel hall hparse
    exact backoffRetry_allFail _ delay 120 _
      (fun n => by simp [fetch_cases_attempt, hall n, hparse]) fuel 0 0

/-- C6 witness: the retry theorem applied to an operation that always raises
error `3`, with unit delays and four attempts of fuel. -/
theorem C6_witness :
    ((fun _ : Nat => (Except.error 3 : Except Nat Nat)) 0 = Except.error 3) ∧
    backoffRetry (fun _ : Nat => (Except.error 3 : Except Nat Nat))
      (fun _ => 1) 120 4 0 0 = Except.error 3 :=
  ⟨rfl, C6_retry_policy.1 Nat Nat (fun _ => Except.error 3) (fun _ => 1) 3 4 0 0
    (fun _ => rfl)⟩

/-! ### C7: row filtering -/

/-- C7 counterexample: the claim says a row lacking a hyperlink in its second
cell (e.g. a header row with column titles) yields zero records and is
skipped without raising an error; on a header row whose second cell has no
child elements, `link = tr[1][0]` raises `IndexError` instead of skipping. -/
theorem C7_counterexample :
    cases_from_page "JUSTICE A" [headerRow] = Except.error ScrapeErr.indexError ∧
    ∀ cs, cases_from_page "JUSTICE A" [headerRow] ≠ Except.ok cs := by
  refine ⟨rfl, ?_⟩
  intro cs h
  rw [show cases_from_page "JUSTICE A" [headerRow] =
      Except.error ScrapeErr.indexError from rfl] at h
  exact Except.noConfusion h

/-- C7 (amended): a row yields a case record exactly when the first child
element of its second cell exists and carries an `href` attribute; a row
whose second cell's first child lacks `href` yields zero records and is
skipped without error (page parsing just continues with the remaining rows);
but a row with fewer than two cells, or whose second cell has no child
elements at all, raises `IndexError` rather than being skipped. -/
theorem C7_row_filtering :
    (∀ (jn : String) (tr : Row) (c1 : Cell) (l : Elem),
        tr.cells[1]? = some c1 → c1.children[0]? = some l →
        l.href = none → caseFromRow jn tr = Except.ok none) ∧
    (∀ (jn : String) (tr : Row) (rest : List Row) (c1 : Cell) (l : Elem),
        tr.cells[1]? = some c1 → c1.children[0]? = some l →
        l.href = none →
        cases_from_page jn (tr :: rest) = cases_from_page jn rest) ∧
    (∀ (jn : String) (tr : Row) (c1 : Cell),
        tr.cells[1]? = some c1 → c1.children = [] →
        caseFromRow jn tr = Except.error ScrapeErr.indexError) ∧
    (∀ (jn : String) (tr : Row), tr.cells[1]? = none →
        caseFromRow jn tr = Except.error ScrapeErr.indexError) ∧
    (∀ (jn : String) (tr : Row) (c1 : Cell) (l : Elem) (u : String) (c2 : Cell)
        (d : Date) (c3 : Cell),
        tr.cells[1]? = some c1 → c1.children[0]? = some l →
        l.href = some u → tr.cells[2]? = some c2 →
        parseDate c2.textContent = some d → tr.cells[3]? = some c3 →
        caseFromRow jn tr = Except.ok (some
          { pdf_link := u, case_number := String.mk (trimChars l.textContent.data),
            date := d, party := c3.textContent, judge_name := jn })) := by
  refine ⟨?_, ?_, ?_, ?_, ?_⟩
  · intro jn tr c1 l h1 h0 hh
    simp [caseFromRow, h1, h0, hh]
  · intro jn tr rest c1 l h1 h0 hh
    have hrow : caseFromRow jn tr = Except.ok none := by
      simp [caseFromRow, h1, h0, hh]
    cases hre : cases_from_page jn rest with
    | error e => simp [cases_from_page, hrow, hre]
    | ok cs => simp [cases_from_page, hrow, hre]
  · intro jn tr c1 h1 hch
    simp [caseFromRow, h1, hch]
  · intro jn tr h1
    simp [caseFromRow, h1]
  · intro jn tr c1 l u c2 d c3 h1 h0 hh h2 hd h3
    simp [caseFromRow, h1, h0, hh, h2, hd, h3]

/-- C7 witness: the amended theorem applied to a concrete skipped row (first
child of the second cell has no `href`) in front of a well-formed row. -/
theorem C7_witness :
    caseFromRow "JUSTICE A" skipRow = Except.ok none ∧
    cases_from_page "JUSTICE A" [skipRow, goodRow] =
      cases_from_page "JUSTICE A" [goodRow] :=
  ⟨C7_row_filtering.1 "JUSTICE A" skipRow _ _ rfl rfl rfl,
   C7_row_filtering.2.1 "JUSTICE A" skipRow [goodRow] _ _ rfl rfl rfl⟩

/-! ### C8: pagination -/

/-- C8: over a fixture of pages where exactly the last lacks a `NEXT >>`
link and every page parses, `fetch_cases` yields the records of all pages
exactly once each, in page order, and terminates with that concatenation. -/
theorem C8_pagination (jn : String) (front : List Page) (last : Page)
    (hfr : ∀ p ∈ front, p.hasNext = true) (hl : last.hasNext = false)
    (hok : ∀ p ∈ front ++ [last],
      ∃ cs, cases_from_page jn p.rows = Except.ok cs) :
    fetch_cases_model jn (front ++ [last]) =
      Except.ok (joinAll ((front ++ [last]).map (pageCases jn))) := by
  induction front with
  | nil =>
    obtain ⟨cs, hcs⟩ := hok last (by simp)
    simp [fetch_cases_model, followPages, hcs, hl, pageCases, joinAll]
  | cons p fr ih =>
    have ihh : fetch_cases_model jn (fr ++ [last]) =
        Except.ok (joinAll ((fr ++ [last]).map (pageCases jn))) :=
      ih (fun q hq => hfr q (List.mem_cons_of_mem p hq))
        (fun q hq => hok q (List.mem_cons_of_mem p hq))
    obtain ⟨cs, hcs⟩ := hok p (List.mem_cons_self p (fr ++ [last]))
    have hpn := hfr p (List.mem_cons_self p fr)
    have hfp : followPages jn (fr ++ [last]) =
        Except.ok (joinAll ((fr ++ [last]).map (pageCases jn))) := ihh
    show followPages jn (p :: (fr ++ [last])) = _
    simp only [followPages, hcs, hpn, if_true, hfp, List.map_cons, joinAll_cons,
      pageCases]
    simp [pageCases, hcs, joinAll_cons]

/-- C8 witness: the pagination theorem applied to a concrete two-page
fixture whose last page lacks the link. -/
theorem C8_witness :
    pg2.hasNext = false ∧
    fetch_cases_model "JUSTICE A" ([pg1] ++ [pg2]) =
      Except.ok (joinAll (([pg1] ++ [pg2]).map (pageCases "JUSTICE A"))) :=
  ⟨rfl, C8_pagination "JUSTICE A" [pg1] pg2 (by decide) rfl
    (by
      intro p hp
      rcases List.mem_cons.mp hp with rfl | hp2
      · exact ⟨[goodRec], rfl⟩
      · rcases List.mem_cons.mp hp2 with rfl | hp3
        · exact ⟨[goodRec], rfl⟩
        · cases hp3)⟩

/-! ### C10: frame effect of reconciling an existing judgement -/

/-- C10: when reconciliation meets a record whose reference URL already has a
Judgement row, no Judgement row is created or deleted and every Judgement
row keeps its `pdf_link`, `date`, `text_content` and `text_content_hash`
unchanged — even if the record carries a different date — the only possible
change being the append of the current judge to an author list. -/
theorem C10_existing_judgement_frame (jid : Nat) (r : CaseRec) (db : DB)
    (jm : Judgement) (hfind : findJudgementByLink db r.pdf_link = some jm) :
    (processRecord jid r db).judgements.length = db.judgements.length ∧
    List.Forall₂ (fun x x' : Judgement =>
        x'.id = x.id ∧ x'.pdf_link = x.pdf_link ∧ x'.date = x.date ∧
        x'.text_content = x.text_content ∧
        x'.text_content_hash = x.text_content_hash ∧
        (x'.judges = x.judges ∨ x'.judges = x.judges ++ [jid]))
      db.judgements (processRecord jid r db).judgements := by
  have hcase : ∀ (db1 : DB) (jmId : Nat),
      (addCaseIfNew db1 r jmId).judgements = db1.judgements := by
    intro db1 jmId
    unfold addCaseIfNew
    by_cases hc : caseNumberExists db1 r.case_number <;> simp [hc]
  have hj : (processRecord jid r db).judgements =
      (if jid ∈ jm.judges then db.judgements
       else db.judgements.map (fun x =>
         if x.id == jm.id then { x with judges := x.judges ++ [jid] } else x)) := by
    unfold processRecord
    rw [hfind]
    by_cases hmem : jid ∈ jm.judges
    · rw [if_pos hmem, hcase, if_pos hmem]
    · rw [if_neg hmem, hcase, if_neg hmem]
  rw [hj]
  by_cases hmem : jid ∈ jm.judges
  · rw [if_pos hmem]
    refine ⟨rfl, forall2_refl_of _ _ ?_⟩
    intro x _
    exact ⟨rfl, rfl, rfl, rfl, rfl, Or.inl rfl⟩
  · rw [if_neg hmem]
    refine ⟨List.length_map _ _, forall2_of_map _ _ _ ?_⟩
    intro x _
    by_cases hx : x.id = jm.id
    · rw [if_pos (beq_iff_eq.mpr hx)]
      exact ⟨rfl, rfl, rfl, rfl, rfl, Or.inr rfl⟩
    · rw [if_neg (by simp [hx])]
      exact ⟨rfl, rfl, rfl, rfl, rfl, Or.inl rfl⟩

/-- C10 witness: the frame theorem applied to a store holding the judgement
for `u1` and a record for `u1` whose date differs from the stored one. -/
theorem C10_witness :
    findJudgementByLink dbPair "u1" = some jmtU1 ∧
    recC10.date ≠ jmtU1.date ∧
    (processRecord 5 recC10 dbPair).judgements.length =
      dbPair.judgements.length :=
  ⟨rfl, by decide,
   (C10_existing_judgement_frame 5 recC10 dbPair jmtU1 rfl).1⟩

/-! ### Listing-phase machinery: store growth, establishment, stability -/

theorem find?_append_some {α : Type} {p : α → Bool} {l₁ l₂ : List α} {a : α}
    (h : l₁.find? p = some a) : (l₁ ++ l₂).find? p = some a := by
  induction l₁ with
  | nil => exact absurd h (by simp)
  | cons x xs ih =>
    cases hx : p x with
    | true =>
      rw [List.find?_cons_of_pos _ hx] at h
      rw [List.cons_append, List.find?_cons_of_pos _ hx]
      exact h
    | false =>
      have hnx : ¬ p x = true := by rw [hx]; exact Bool.false_ne_true
      rw [List.find?_cons_of_neg _ hnx] at h
      rw [List.cons_append, List.find?_cons_of_neg _ hnx]
      exact ih h

theorem find?_append_none {α : Type} {p : α → Bool} {l₁ : List α} (l₂ : List α)
    (h : l₁.find? p = none) : (l₁ ++ l₂).find? p = l₂.find? p := by
  induction l₁ with
  | nil => rfl
  | cons x xs ih =>
    cases hx : p x with
    | true => rw [List.find?_cons_of_pos _ hx] at h; cases h
    | false =>
      have hnx : ¬ p x = true := by rw [hx]; exact Bool.false_ne_true
      rw [List.find?_cons_of_neg _ hnx] at h
      rw [List.cons_append, List.find?_cons_of_neg _ hnx]
      exact ih h

theorem processRecord_eq_none {jid : Nat} {r : CaseRec} {db : DB}
    (hf : findJudgementByLink db r.pdf_link = none) :
    processRecord jid r db =
      addCaseIfNew
        { db with judgements := db.judgements ++ [newJudgementRow db.nextId r jid]
                  nextId := db.nextId + 1 }
        r db.nextId := by
  unfold processRecord
  rw [hf]

theorem processRecord_eq_some {jid : Nat} {r : CaseRec} {db : DB} {jm : Judgement}
    (hf : findJudgementByLink db r.pdf_link = some jm) :
    processRecord jid r db =
      addCaseIfNew
        (if jid ∈ jm.judges then db
         else
          { db with
              judgements := db.judgements.map (fun x =>
                if x.id == jm.id then { x with judges := x.judges ++ [jid] } else x) })
        r jm.id := by
  unfold processRecord
  rw [hf]

theorem processEntity_eq_some {e : EntityCrawl} {db : DB} {j : Judge}
    (hf : findJudgeByName db e.judge_name = some j) :
    processEntity e db = e.records.foldl (fun d r => processRecord j.id r d) db := by
  unfold processEntity
  rw [hf]

theorem processEntity_eq_none {e : EntityCrawl} {db : DB}
    (hf : findJudgeByName db e.judge_name = none) :
    processEntity e db =
      e.records.foldl (fun d r => processRecord db.nextId r d)
        { db with judges := db.judges ++ [newJudgeRow db.nextId e.judge_name]
                  nextId := db.nextId + 1 } := by
  unfold processEntity
  rw [hf]

theorem find?_map_comm {α : Type} (f : α → α) (p : α → Bool) (l : List α)
    (hpf : ∀ x, p (f x) = p x) : (l.map f).find? p = (l.find? p).map f := by
  induction l with
  | nil => rfl
  | cons x xs ih =>
    rw [List.map_cons]
    cases hx : p x with
    | true =>
      rw [List.find?_cons_of_pos _ ((hpf x).trans hx),
        List.find?_cons_of_pos _ hx]
      rfl
    | false =>
      rw [List.find?_cons_of_neg _ (by rw [hpf x, hx]; exact Bool.false_ne_true),
        List.find?_cons_of_neg _ (by rw [hx]; exact Bool.false_ne_true)]
      exact ih

theorem find?_of_unique {α : Type} {p : α → Bool} :
    ∀ {l : List α} {a : α}, a ∈ l → p a = true →
      (∀ b ∈ l, p b = true → b = a) → l.find? p = some a := by
  intro l
  induction l with
  | nil => intro a ha; cases ha
  | cons x xs ih =>
    intro a ha hpa huniq
    cases hx : p x with
    | true =>
      rw [List.find?_cons_of_pos _ hx]
      exact congrArg some (huniq x (List.mem_cons_self x xs) hx)
    | false =>
      rw [List.find?_cons_of_neg _ (by rw [hx]; exact Bool.false_ne_true)]
      rcases List.mem_cons.mp ha with rfl | ha2
      · rw [hpa] at hx; cases hx
      · exact ih ha2 hpa (fun b hb hpb => huniq b (List.mem_cons_of_mem x hb) hpb)

theorem pairwise_key_unique {α β : Type} {f : α → β} :
    ∀ {l : List α}, List.Pairwise (fun x y => f x ≠ f y) l →
      ∀ {a b : α}, a ∈ l → b ∈ l → f a = f b → a = b := by
  intro l
  induction l with
  | nil => intro _ a b ha; cases ha
  | cons x xs ih =>
    intro hp a b ha hb hf
    obtain ⟨hx, hxs⟩ := List.pairwise_cons.mp hp
    rcases List.mem_cons.mp ha with rfl | ha2
    · rcases List.mem_cons.mp hb with rfl | hb2
      · rfl
      · exact absurd hf (hx b hb2)
    · rcases List.mem_cons.mp hb with rfl | hb2
      · exact absurd hf.symm (hx a ha2)
      · exact ih hxs ha2 hb2 hf

theorem forall2_find_transfer {α : Type} {R : α → α → Prop} {p : α → Bool}
    (hp : ∀ x y, R x y → p y = p x) :
    ∀ {l m : List α}, List.Forall₂ R l m → ∀ {a : α}, l.find? p = some a →
      ∃ b, m.find? p = some b ∧ R a b := by
  intro l m h
  induction h with
  | nil => intro a ha; exact absurd ha (by simp)
  | @cons x y l' m' hr hrest ih =>
    intro a ha
    cases hx : p x with
    | true =>
      rw [List.find?_cons_of_pos _ hx] at ha
      cases ha
      exact ⟨y, List.find?_cons_of_pos _ (by rw [hp _ _ hr]; exact hx), hr⟩
    | false =>
      rw [List.find?_cons_of_neg _ (by rw [hx]; exact Bool.false_ne_true)] at ha
      obtain ⟨b, hb, hRb⟩ := ih ha
      refine ⟨b, ?_, hRb⟩
      rw [List.find?_cons_of_neg _ (by rw [hp _ _ hr, hx]; exact Bool.false_ne_true)]
      exact hb

theorem forall2_append_split {α : Type} {R : α → α → Prop} :
    ∀ {l₁ l₂ m : List α}, List.Forall₂ R (l₁ ++ l₂) m →
      ∃ m₁ m₂, m = m₁ ++ m₂ ∧ List.Forall₂ R l₁ m₁ ∧ List.Forall₂ R l₂ m₂ := by
  intro l₁
  induction l₁ with
  | nil => intro l₂ m h; exact ⟨[], m, rfl, List.Forall₂.nil, h⟩
  | cons x xs ih =>
    intro l₂ m h
    cases h with
    | @cons _ y _ m' hr hrest =>
      obtain ⟨m₁, m₂, rfl, h1, h2⟩ := ih hrest
      exact ⟨y :: m₁, m₂, rfl, List.Forall₂.cons hr h1, h2⟩

theorem JmLe_refl (x : Judgement) : JmLe x x :=
  ⟨rfl, rfl, rfl, rfl, rfl, [], (List.append_nil x.judges).symm⟩

theorem JmLe_trans {x y z : Judgement} (h1 : JmLe x y) (h2 : JmLe y z) : JmLe x z := by
  obtain ⟨a1, a2, a3, a4, a5, e1, he1⟩ := h1
  obtain ⟨b1, b2, b3, b4, b5, e2, he2⟩ := h2
  exact ⟨b1.trans a1, b2.trans a2, b3.trans a3, b4.trans a4, b5.trans a5, e1 ++ e2,
    by rw [he2, he1, List.append_assoc]⟩

theorem forall2_JmLe_trans : ∀ {l m n : List Judgement},
    List.Forall₂ JmLe l m → List.Forall₂ JmLe m n → List.Forall₂ JmLe l n := by
  intro l m n h1
  induction h1 generalizing n with
  | nil =>
    intro h2
    cases h2
    exact List.Forall₂.nil
  | cons hr hrest ih =>
    intro h2
    cases h2 with
    | cons hr2 hrest2 => exact List.Forall₂.cons (JmLe_trans hr hr2) (ih hrest2)

theorem DbLe_refl (db : DB) : DbLe db db :=
  ⟨⟨[], (List.append_nil _).symm⟩,
   ⟨db.judgements, [], (List.append_nil _).symm,
     forall2_refl_of _ _ (fun x _ => JmLe_refl x)⟩,
   ⟨[], (List.append_nil _).symm⟩⟩

theorem DbLe_trans {a b c : DB} (h1 : DbLe a b) (h2 : DbLe b c) : DbLe a c := by
  refine ⟨?_, ?_, ?_⟩
  · obtain ⟨e1, he1⟩ := h1.judges_ext
    obtain ⟨e2, he2⟩ := h2.judges_ext
    exact ⟨e1 ++ e2, by rw [he2, he1, List.append_assoc]⟩
  · obtain ⟨p1, x1, hb, hf1⟩ := h1.jmts_ext
    obtain ⟨p2, x2, hc, hf2⟩ := h2.jmts_ext
    rw [hb] at hf2
    obtain ⟨q1, q2, hq, hfa, hfb⟩ := forall2_append_split hf2
    refine ⟨q1, q2 ++ x2, ?_, forall2_JmLe_trans hf1 hfa⟩
    rw [hc, hq, List.append_assoc]
  · obtain ⟨e1, he1⟩ := h1.cases_ext
    obtain ⟨e2, he2⟩ := h2.cases_ext
    exact ⟨e1 ++ e2, by rw [he2, he1, List.append_assoc]⟩

theorem addCaseIfNew_judges (db1 : DB) (r : CaseRec) (jmId : Nat) :
    (addCaseIfNew db1 r jmId).judges = db1.judges := by
  unfold addCaseIfNew
  by_cases hc : caseNumberExists db1 r.case_number <;> simp [hc]

theorem addCaseIfNew_judgements (db1 : DB) (r : CaseRec) (jmId : Nat) :
    (addCaseIfNew db1 r jmId).judgements = db1.judgements := by
  unfold addCaseIfNew
  by_cases hc : caseNumberExists db1 r.case_number <;> simp [hc]

theorem addCaseIfNew_cases (db1 : DB) (r : CaseRec) (jmId : Nat) :
    ∃ ext, (addCaseIfNew db1 r jmId).cases = db1.cases ++ ext := by
  unfold addCaseIfNew
  by_cases hc : caseNumberExists db1 r.case_number
  · exact ⟨[], by simp [hc]⟩
  · exact ⟨[newCaseRow db1.nextId r jmId], by simp [hc]⟩

theorem addCaseIfNew_caseFact (db1 : DB) (r : CaseRec) (jmId : Nat) :
    caseNumberExists (addCaseIfNew db1 r jmId) r.case_number = true := by
  unfold addCaseIfNew
  by_cases hc : caseNumberExists db1 r.case_number
  · rw [if_pos hc]
    exact hc
  · rw [if_neg hc]
    unfold caseNumberExists
    simp [List.any_append, newCaseRow]

theorem caseNumberExists_mono {db db' : DB} (h : ∃ ext, db'.cases = db.cases ++ ext)
    {cn : String} (hc : caseNumberExists db cn = true) :
    caseNumberExists db' cn = true := by
  obtain ⟨ext, he⟩ := h
  unfold caseNumberExists at hc ⊢
  rw [he, List.any_append, hc, Bool.true_or]

theorem addCaseIfNew_dbLe (db1 : DB) (r : CaseRec) (jmId : Nat) :
    DbLe db1 (addCaseIfNew db1 r jmId) :=
  ⟨⟨[], by rw [addCaseIfNew_judges, List.append_nil]⟩,
   ⟨db1.judgements, [], by rw [addCaseIfNew_judgements, List.append_nil],
     forall2_refl_of _ _ (fun x _ => JmLe_refl x)⟩,
   addCaseIfNew_cases db1 r jmId⟩

theorem processRecord_dbLe (jid : Nat) (r : CaseRec) (db : DB) :
    DbLe db (processRecord jid r db) := by
  cases hf : findJudgementByLink db r.pdf_link with
  | none =>
    rw [processRecord_eq_none hf]
    refine DbLe_trans ?_ (addCaseIfNew_dbLe _ r db.nextId)
    exact ⟨⟨[], (List.append_nil _).symm⟩,
      ⟨db.judgements, [newJudgementRow db.nextId r jid], rfl,
        forall2_refl_of _ _ (fun x _ => JmLe_refl x)⟩,
      ⟨[], (List.append_nil _).symm⟩⟩
  | some jm =>
    rw [processRecord_eq_some hf]
    refine DbLe_trans ?_ (addCaseIfNew_dbLe _ r jm.id)
    by_cases hmem : jid ∈ jm.judges
    · rw [if_pos hmem]
      exact DbLe_refl db
    · rw [if_neg hmem]
      refine ⟨⟨[], (List.append_nil _).symm⟩,
        ⟨db.judgements.map (fun x =>
          if x.id == jm.id then { x with judges := x.judges ++ [jid] } else x), [],
         (List.append_nil _).symm, forall2_of_map _ _ _ ?_⟩,
        ⟨[], (List.append_nil _).symm⟩⟩
      intro x _
      by_cases hx : x.id = jm.id
      · rw [if_pos (beq_iff_eq.mpr hx)]
        exact ⟨rfl, rfl, rfl, rfl, rfl, [jid], rfl⟩
      · rw [if_neg (by simp [hx])]
        exact JmLe_refl x

theorem foldl_dbLe {β : Type} (step : β → DB → DB)
    (hstep : ∀ b db, DbLe db (step b db)) :
    ∀ (l : List β) (db : DB), DbLe db (l.foldl (fun d b => step b d) db) := by
  intro l
  induction l with
  | nil => intro db; exact DbLe_refl db
  | cons b bs ih =>
    intro db
    rw [List.foldl_cons]
    exact DbLe_trans (hstep b db) (ih (step b db))

theorem processEntity_dbLe (e : EntityCrawl) (db : DB) :
    DbLe db (processEntity e db) := by
  cases hf : findJudgeByName db e.judge_name with
  | some j =>
    rw [processEntity_eq_some hf]
    exact foldl_dbLe (fun r d => processRecord j.id r d)
      (fun r d => processRecord_dbLe j.id r d) e.records db
  | none =>
    rw [processEntity_eq_none hf]
    refine DbLe_trans ?_
      (foldl_dbLe (fun r d => processRecord db.nextId r d)
        (fun r d => processRecord_dbLe db.nextId r d) e.records _)
    exact ⟨⟨[newJudgeRow db.nextId e.judge_name], rfl⟩,
      ⟨db.judgements, [], (List.append_nil _).symm,
        forall2_refl_of _ _ (fun x _ => JmLe_refl x)⟩,
      ⟨[], (List.append_nil _).symm⟩⟩

theorem findJudge_mono {db db' : DB} (h : DbLe db db') {nm : String} {j : Judge}
    (hf : findJudgeByName db nm = some j) : findJudgeByName db' nm = some j := by
  obtain ⟨ext, he⟩ := h.judges_ext
  unfold findJudgeByName at hf ⊢
  rw [he]
  exact find?_append_some hf

theorem linkFact_mono {db db' : DB} (h : DbLe db db') {jid : Nat} {link : String}
    (hf : LinkFact db jid link) : LinkFact db' jid link := by
  obtain ⟨jm, hjm, hmem⟩ := hf
  obtain ⟨pre, ext, he, hfa⟩ := h.jmts_ext
  unfold findJudgementByLink at hjm
  have hp : ∀ x y, JmLe x y →
      (fun z : Judgement => z.pdf_link == link) y =
      (fun z : Judgement => z.pdf_link == link) x := by
    intro x y hxy
    simp only
    rw [hxy.2.1]
  obtain ⟨b, hb, hR⟩ := forall2_find_transfer hp hfa hjm
  refine ⟨b, ?_, ?_⟩
  · unfold findJudgementByLink
    rw [he]
    exact find?_append_some hb
  · obtain ⟨_, _, _, _, _, e2, hje⟩ := hR
    rw [hje]
    exact List.mem_append_left _ hmem

theorem caseFact_mono {db db' : DB} (h : DbLe db db') {cn : String}
    (hf : CaseFact db cn) : CaseFact db' cn :=
  caseNumberExists_mono h.cases_ext hf

theorem entityDone_mono {db db' : DB} (h : DbLe db db') {e : EntityCrawl}
    (hd : EntityDone db e) : EntityDone db' e := by
  obtain ⟨j, hj, hrec⟩ := hd
  exact ⟨j, findJudge_mono h hj, fun r hr =>
    ⟨linkFact_mono h (hrec r hr).1, caseFact_mono h (hrec r hr).2⟩⟩

theorem caseFact_addCaseIfNew_mono {db1 : DB} {cn : String}
    (hc : CaseFact db1 cn) (r : CaseRec) (jmId : Nat) :
    CaseFact (addCaseIfNew db1 r jmId) cn :=
  caseNumberExists_mono (addCaseIfNew_cases db1 r jmId) hc

theorem processRecord_estab (jid : Nat) (r : CaseRec) (db : DB) :
    LinkFact (processRecord jid r db) jid r.pdf_link ∧
    CaseFact (processRecord jid r db) r.case_number := by
  cases hf : findJudgementByLink db r.pdf_link with
  | none =>
    rw [processRecord_eq_none hf]
    constructor
    · refine ⟨newJudgementRow db.nextId r jid, ?_, ?_⟩
      · unfold findJudgementByLink
        rw [addCaseIfNew_judgements]
        show (db.judgements ++ [newJudgementRow db.nextId r jid]).find? _ = _
        rw [find?_append_none _ hf]
        exact List.find?_cons_of_pos _ (beq_self_eq_true r.pdf_link)
      · exact List.mem_singleton.mpr rfl
    · exact addCaseIfNew_caseFact _ r db.nextId
  | some jm =>
    rw [processRecord_eq_some hf]
    constructor
    · by_cases hmem : jid ∈ jm.judges
      · rw [if_pos hmem]
        refine ⟨jm, ?_, hmem⟩
        unfold findJudgementByLink
        rw [addCaseIfNew_judgements]
        exact hf
      · rw [if_neg hmem]
        refine ⟨{ jm with judges := jm.judges ++ [jid] }, ?_, ?_⟩
        · unfold findJudgementByLink
          rw [addCaseIfNew_judgements]
          show (db.judgements.map _).find? _ = _
          rw [find?_map_comm _ _ _ ?hpf]
          case hpf =>
            intro x
            by_cases hx : x.id = jm.id
            · rw [if_pos (beq_iff_eq.mpr hx)]
            · rw [if_neg (by simp [hx])]
          rw [show db.judgements.find? (fun x => x.pdf_link == r.pdf_link) =
            some jm from hf]
          exact congrArg some (if_pos (beq_self_eq_true jm.id))
        · exact List.mem_append_right _ (List.mem_singleton.mpr rfl)
    · by_cases hmem : jid ∈ jm.judges
      · rw [if_pos hmem]
        exact addCaseIfNew_caseFact db r jm.id
      · rw [if_neg hmem]
        exact addCaseIfNew_caseFact _ r jm.id

theorem recsFold_estab (jid : Nat) :
    ∀ (recs : List CaseRec) (db : DB), ∀ r ∈ recs,
      LinkFact (recs.foldl (fun d x => processRecord jid x d) db) jid r.pdf_link ∧
      CaseFact (recs.foldl (fun d x => processRecord jid x d) db) r.case_number := by
  intro recs
  induction recs with
  | nil => intro db r hr; cases hr
  | cons x xs ih =>
    intro db r hr
    rw [List.foldl_cons]
    rcases List.mem_cons.mp hr with rfl | hmem
    · have h1 := processRecord_estab jid r db
      have hle := foldl_dbLe (fun b d => processRecord jid b d)
        (fun b d => processRecord_dbLe jid b d) xs (processRecord jid r db)
      exact ⟨linkFact_mono hle h1.1, caseFact_mono hle h1.2⟩
    · exact ih (processRecord jid x db) r hmem

theorem processEntity_estab (e : EntityCrawl) (db : DB) :
    EntityDone (processEntity e db) e := by
  cases hf : findJudgeByName db e.judge_name with
  | some j =>
    rw [processEntity_eq_some hf]
    refine ⟨j, ?_, ?_⟩
    · exact findJudge_mono (foldl_dbLe (fun b d => processRecord j.id b d)
        (fun b d => processRecord_dbLe j.id b d) e.records db) hf
    · intro r hr
      exact recsFold_estab j.id e.records db r hr
  | none =>
    rw [processEntity_eq_none hf]
    have hfj : findJudgeByName
        { db with judges := db.judges ++ [newJudgeRow db.nextId e.judge_name]
                  nextId := db.nextId + 1 }
        e.judge_name = some (newJudgeRow db.nextId e.judge_name) := by
      unfold findJudgeByName at hf ⊢
      show (db.judges ++ [newJudgeRow db.nextId e.judge_name]).find? _ = _
      rw [find?_append_none _ hf]
      exact List.find?_cons_of_pos _ (beq_self_eq_true e.judge_name)
    refine ⟨newJudgeRow db.nextId e.judge_name, ?_, ?_⟩
    · exact findJudge_mono (foldl_dbLe (fun b d => processRecord db.nextId b d)
        (fun b d => processRecord_dbLe db.nextId b d) e.records _) hfj
    · intro r hr
      exact recsFold_estab db.nextId e.records _ r hr

theorem scrapeFold_done :
    ∀ (input : List EntityCrawl) (db : DB) (e : EntityCrawl), e ∈ input →
      EntityDone (input.foldl (fun d x => processEntity x d) db) e := by
  intro input
  induction input with
  | nil => intro db e he; cases he
  | cons x xs ih =>
    intro db e he
    rw [List.foldl_cons]
    rcases List.mem_cons.mp he with rfl | hmem
    · exact entityDone_mono (foldl_dbLe (fun b d => processEntity b d)
        (fun b d => processEntity_dbLe b d) xs _) (processEntity_estab e db)
    · exact ih _ e hmem

theorem processRecord_noop {db : DB} {jid : Nat} {r : CaseRec}
    (hl : LinkFact db jid r.pdf_link) (hc : CaseFact db r.case_number) :
    processRecord jid r db = db := by
  obtain ⟨jm, hjm, hmem⟩ := hl
  rw [processRecord_eq_some hjm, if_pos hmem]
  unfold addCaseIfNew
  exact if_pos hc

theorem recsFold_noop {db : DB} {jid : Nat} :
    ∀ (recs : List CaseRec),
      (∀ r ∈ recs, LinkFact db jid r.pdf_link ∧ CaseFact db r.case_number) →
      recs.foldl (fun d x => processRecord jid x d) db = db := by
  intro recs
  induction recs with
  | nil => intro _; rfl
  | cons x xs ih =>
    intro h
    rw [List.foldl_cons, processRecord_noop (h x (List.mem_cons_self x xs)).1
      (h x (List.mem_cons_self x xs)).2]
    exact ih (fun r hr => h r (List.mem_cons_of_mem x hr))

theorem processEntity_noop {db : DB} {e : EntityCrawl} (hd : EntityDone db e) :
    processEntity e db = db := by
  obtain ⟨j, hj, hrec⟩ := hd
  rw [processEntity_eq_some hj]
  exact recsFold_noop e.records hrec

theorem scrapeFold_noop {db : DB} :
    ∀ (input : List EntityCrawl), (∀ e ∈ input, EntityDone db e) →
      input.foldl (fun d x => processEntity x d) db = db := by
  intro input
  induction input with
  | nil => intro _; rfl
  | cons x xs ih =>
    intro h
    rw [List.foldl_cons, processEntity_noop (h x (List.mem_cons_self x xs))]
    exact ih (fun e he => h e (List.mem_cons_of_mem x he))

/-! ### C3: idempotent re-crawl -/

/-- C3: running the listing crawl a second time over the same input, starting
from the store produced by the first run, changes nothing — every Judge is
found by name, every Judgement by reference URL (with its author already
attached), every Case by case number, so no new rows are created and the
resulting session is identical. -/
theorem C3_idempotent_recrawl (input : List EntityCrawl) (s : Session) :
    scrape_cases input (scrape_cases input s) = scrape_cases input s := by
  show Session.mk _ _ = Session.mk _ _
  have hall : ∀ e ∈ input,
      EntityDone (input.foldl (fun d x => processEntity x d) s.working) e :=
    fun e he => scrapeFold_done input s.working e he
  have hnoop := scrapeFold_noop input hall
  unfold scrape_cases
  simp only
  rw [hnoop]

/-! ### C9: authorship accumulation -/

theorem findJudgeByName_name {db : DB} {nm : String} {j : Judge}
    (h : findJudgeByName db nm = some j) : j.name = nm ∧ j ∈ db.judges := by
  unfold findJudgeByName at h
  have hp := List.find?_some h
  exact ⟨beq_iff_eq.mp (show (j.name == nm) = true from hp),
    List.mem_of_find?_eq_some h⟩

theorem findJudgementByLink_link {db : DB} {u : String} {jm : Judgement}
    (h : findJudgementByLink db u = some jm) :
    jm.pdf_link = u ∧ jm ∈ db.judgements := by
  unfold findJudgementByLink at h
  have hp := List.find?_some h
  exact ⟨beq_iff_eq.mp (show (jm.pdf_link == u) = true from hp),
    List.mem_of_find?_eq_some h⟩

theorem SInv_empty : SInv emptyDB :=
  ⟨List.Pairwise.nil, List.Pairwise.nil, List.Pairwise.nil,
   fun _ h => absurd h (List.not_mem_nil _),
   fun _ h => absurd h (List.not_mem_nil _),
   fun _ h => absurd h (List.not_mem_nil _)⟩

theorem SInv_addCaseIfNew {db1 : DB} (h : SInv db1) (r : CaseRec) (jmId : Nat) :
    SInv (addCaseIfNew db1 r jmId) := by
  unfold addCaseIfNew
  by_cases hc : caseNumberExists db1 r.case_number
  · rwa [if_pos hc]
  · rw [if_neg hc]
    obtain ⟨h1, h2, h3, h4, h5, h6⟩ := h
    exact ⟨h1, h2, h3, h4, fun j hj => Nat.lt_succ_of_lt (h5 j hj),
      fun jm hjm => Nat.lt_succ_of_lt (h6 jm hjm)⟩

theorem SInv_processRecord {db : DB} (h : SInv db) (jid : Nat) (r : CaseRec) :
    SInv (processRecord jid r db) := by
  cases hf : findJudgementByLink db r.pdf_link with
  | none =>
    rw [processRecord_eq_none hf]
    refine SInv_addCaseIfNew ?_ r db.nextId
    obtain ⟨h1, h2, h3, h4, h5, h6⟩ := h
    have hnl : ∀ x ∈ db.judgements, x.pdf_link ≠ r.pdf_link := by
      intro x hx heq
      exact (List.find?_eq_none.mp hf x hx) (beq_iff_eq.mpr heq)
    refine ⟨h1, ?_, ?_, ?_, fun j hj => Nat.lt_succ_of_lt (h5 j hj), ?_⟩
    · rw [List.pairwise_append]
      refine ⟨h2, List.pairwise_singleton _ _, ?_⟩
      intro x hx y hy
      rw [List.mem_singleton] at hy
      subst hy
      exact Nat.ne_of_lt (h6 x hx)
    · rw [List.pairwise_append]
      refine ⟨h3, List.pairwise_singleton _ _, ?_⟩
      intro x hx y hy
      rw [List.mem_singleton] at hy
      subst hy
      exact hnl x hx
    · intro x hx
      rcases List.mem_append.mp hx with hm | hm
      · exact h4 x hm
      · rw [List.mem_singleton] at hm
        subst hm
        exact List.nodup_singleton jid
    · intro x hx
      rcases List.mem_append.mp hx with hm | hm
      · exact Nat.lt_succ_of_lt (h6 x hm)
      · rw [List.mem_singleton] at hm
        subst hm
        exact Nat.lt_succ_self db.nextId
  | some jm =>
    rw [processRecord_eq_some hf]
    by_cases hmem : jid ∈ jm.judges
    · rw [if_pos hmem]
      exact SInv_addCaseIfNew h r jm.id
    · rw [if_neg hmem]
      refine SInv_addCaseIfNew ?_ r jm.id
      obtain ⟨h1, h2, h3, h4, h5, h6⟩ := h
      have hjmm : jm ∈ db.judgements := (findJudgementByLink_link hf).2
      set f : Judgement → Judgement := fun x =>
        if x.id == jm.id then { x with judges := x.judges ++ [jid] } else x with hfdef
      have hid : ∀ x : Judgement, (f x).id = x.id := by
        intro x
        rw [hfdef]
        simp only
        by_cases hx : x.id = jm.id
        · rw [if_pos (beq_iff_eq.mpr hx)]
        · rw [if_neg (by simp [hx])]
      have hlink : ∀ x : Judgement, (f x).pdf_link = x.pdf_link := by
        intro x
        rw [hfdef]
        simp only
        by_cases hx : x.id = jm.id
        · rw [if_pos (beq_iff_eq.mpr hx)]
        · rw [if_neg (by simp [hx])]
      refine ⟨h1, ?_, ?_, ?_, h5, ?_⟩
      · rw [List.pairwise_map]
        exact h2.imp (fun hab => by rw [hid, hid]; exact hab)
      · rw [List.pairwise_map]
        exact h3.imp (fun hab => by rw [hlink, hlink]; exact hab)
      · intro x hx
        obtain ⟨y, hy, rfl⟩ := List.mem_map.mp hx
        by_cases hyid : y.id = jm.id
        · have hyjm : y = jm := pairwise_key_unique h2 hy hjmm hyid
          subst hyjm
          have hfy : (f y).judges = y.judges ++ [jid] := by
            rw [hfdef]
            simp only
            rw [if_pos (beq_self_eq_true y.id)]
          rw [hfy, List.nodup_append]
          refine ⟨h4 y hy, List.nodup_singleton jid, ?_⟩
          intro a ha hb
          rw [List.mem_singleton] at hb
          subst hb
          exact hmem ha
        · have hfy : f y = y := by
            rw [hfdef]
            simp only
            rw [if_neg (by simp [hyid])]
          rw [hfy]
          exact h4 y hy
      · intro x hx
        obtain ⟨y, hy, rfl⟩ := List.mem_map.mp hx
        rw [hid y]
        exact h6 y hy

theorem SInv_recsFold (jid : Nat) :
    ∀ (recs : List CaseRec) {db : DB}, SInv db →
      SInv (recs.foldl (fun d x => processRecord jid x d) db) := by
  intro recs
  induction recs with
  | nil => intro db h; exact h
  | cons x xs ih =>
    intro db h
    rw [List.foldl_cons]
    exact ih (SInv_processRecord h jid x)

theorem SInv_processEntity {db : DB} (h : SInv db) (e : EntityCrawl) :
    SInv (processEntity e db) := by
  cases hf : findJudgeByName db e.judge_name with
  | some j =>
    rw [processEntity_eq_some hf]
    exact SInv_recsFold j.id e.records h
  | none =>
    rw [processEntity_eq_none hf]
    refine SInv_recsFold db.nextId e.records ?_
    obtain ⟨h1, h2, h3, h4, h5, h6⟩ := h
    refine ⟨?_, h2, h3, h4, ?_, fun jm hjm => Nat.lt_succ_of_lt (h6 jm hjm)⟩
    · rw [List.pairwise_append]
      refine ⟨h1, List.pairwise_singleton _ _, ?_⟩
      intro x hx y hy
      rw [List.mem_singleton] at hy
      subst hy
      exact Nat.ne_of_lt (h5 x hx)
    · intro j hj
      rcases List.mem_append.mp hj with hm | hm
      · exact Nat.lt_succ_of_lt (h5 j hm)
      · rw [List.mem_singleton] at hm
        subst hm
        exact Nat.lt_succ_self db.nextId

theorem SInv_scrapeFold :
    ∀ (input : List EntityCrawl) {db : DB}, SInv db →
      SInv (input.foldl (fun d x => processEntity x d) db) := by
  intro input
  induction input with
  | nil => intro db h; exact h
  | cons x xs ih =>
    intro db h
    rw [List.foldl_cons]
    exact ih (SInv_processEntity h x)

/-- C9: if the crawls of two different judges each yield a record with the
same reference URL, then after the run the store holds a single Judgement for
that URL, both judges (distinct rows, distinct primary keys) are in its
author set, and the author set has no duplicate edges. -/
theorem C9_authorship_accumulation (input : List EntityCrawl) (s : Session)
    (eA eB : EntityCrawl) (rA rB : CaseRec) (U : String)
    (hAin : eA ∈ input) (hBin : eB ∈ input)
    (hne : eA.judge_name ≠ eB.judge_name)
    (hrA : rA ∈ eA.records) (hrB : rB ∈ eB.records)
    (hUA : rA.pdf_link = U) (hUB : rB.pdf_link = U)
    (hinv : SInv s.working) :
    ∃ jA jB jm,
      findJudgeByName (scrape_cases input s).persisted eA.judge_name = some jA ∧
      findJudgeByName (scrape_cases input s).persisted eB.judge_name = some jB ∧
      jA.id ≠ jB.id ∧
      findJudgementByLink (scrape_cases input s).persisted U = some jm ∧
      jA.id ∈ jm.judges ∧ jB.id ∈ jm.judges ∧ jm.judges.Nodup ∧
      (∀ x ∈ (scrape_cases input s).persisted.judgements,
        x.pdf_link = U → x = jm) := by
  obtain ⟨jA, hjA, hrecA⟩ := scrapeFold_done input s.working eA hAin
  obtain ⟨jB, hjB, hrecB⟩ := scrapeFold_done input s.working eB hBin
  obtain ⟨jmA, hjmA, hmemA⟩ := (hrecA rA hrA).1
  obtain ⟨jmB, hjmB, hmemB⟩ := (hrecB rB hrB).1
  rw [hUA] at hjmA
  rw [hUB] at hjmB
  have hW : SInv (input.foldl (fun d x => processEntity x d) s.working) :=
    SInv_scrapeFold input hinv
  have hABeq : jmA = jmB := by
    rw [hjmA] at hjmB
    exact Option.some.inj hjmB
  subst hABeq
  refine ⟨jA, jB, jmA, hjA, hjB, ?_, hjmA, hmemA, hmemB, ?_, ?_⟩
  · intro hideq
    obtain ⟨hnameA, hmA⟩ := findJudgeByName_name hjA
    obtain ⟨hnameB, hmB⟩ := findJudgeByName_name hjB
    have heq : jA = jB := pairwise_key_unique hW.1 hmA hmB hideq
    exact hne (by rw [← hnameA, heq, hnameB])
  · exact hW.2.2.2.1 jmA (findJudgementByLink_link hjmA).2
  · intro x hx hlx
    obtain ⟨hjml, hjmmem⟩ := findJudgementByLink_link hjmA
    exact pairwise_key_unique hW.2.2.1 hx hjmmem (by rw [hlx, hjml])

/-- C9 witness: the authorship theorem applied to the two-judge fixture whose
crawls both surface document `u1`, starting from the empty store. -/
theorem C9_witness :
    crawlA.judge_name ≠ crawlB.judge_name ∧
    (∃ jA jB jm,
      findJudgeByName (scrape_cases [crawlA, crawlB] (Session.open emptyDB)).persisted
          crawlA.judge_name = some jA ∧
      findJudgeByName (scrape_cases [crawlA, crawlB] (Session.open emptyDB)).persisted
          crawlB.judge_name = some jB ∧
      jA.id ≠ jB.id ∧
      findJudgementByLink (scrape_cases [crawlA, crawlB] (Session.open emptyDB)).persisted
          "u1" = some jm ∧
      jA.id ∈ jm.judges ∧ jB.id ∈ jm.judges ∧ jm.judges.Nodup ∧
      (∀ x ∈ (scrape_cases [crawlA, crawlB] (Session.open emptyDB)).persisted.judgements,
        x.pdf_link = "u1" → x = jm)) :=
  ⟨by decide,
   C9_authorship_accumulation [crawlA, crawlB] (Session.open emptyDB) crawlA crawlB
     recA recB "u1" (by decide) (by decide) (by decide) (by decide) (by decide)
     rfl rfl SInv_empty⟩

/-! ### Content-population machinery -/

theorem setContentRow_of_ne {j x : Judgement} (t hsh : String) (h : x.id ≠ j.id) :
    setContentRow j t hsh x = x := by
  unfold setContentRow
  rw [if_neg (by simp [h])]

theorem setContentRow_of_eq {j x : Judgement} (t hsh : String) (h : x.id = j.id) :
    setContentRow j t hsh x =
      { x with text_content := some t, text_content_hash := some hsh } := by
  unfold setContentRow
  rw [if_pos (beq_iff_eq.mpr h)]

theorem setContentRow_id (j : Judgement) (t hsh : String) (x : Judgement) :
    (setContentRow j t hsh x).id = x.id := by
  by_cases h : x.id = j.id
  · rw [setContentRow_of_eq t hsh h]
  · rw [setContentRow_of_ne t hsh h]

theorem reassignCaseRow_of_ne {j : Judgement} {c : CaseRow} (oid : Nat)
    (h : c.judgement_id ≠ j.id) : reassignCaseRow j oid c = c := by
  unfold reassignCaseRow
  rw [if_neg (by simp [h])]

theorem reassignCaseRow_of_eq {j : Judgement} {c : CaseRow} (oid : Nat)
    (h : c.judgement_id = j.id) :
    reassignCaseRow j oid c = { c with judgement_id := oid } := by
  unfold reassignCaseRow
  rw [if_pos (beq_iff_eq.mpr h)]

theorem CaseRow_set_self {c : CaseRow} {v : Nat} (h : c.judgement_id = v) :
    ({ c with judgement_id := v } : CaseRow) = c := by
  cases c
  simp only at h
  rw [h]

theorem processDoc_eq_none {pdfText hashFn : String → String} {db : DB} {x : Nat}
    (hf : findJudgementById db.judgements x = none) :
    processDoc pdfText hashFn db x = db := by
  unfold processDoc
  rw [hf]

theorem processDoc_eq_some {pdfText hashFn : String → String} {db : DB} {x : Nat}
    {j : Judgement} (hf : findJudgementById db.judgements x = some j) :
    processDoc pdfText hashFn db x = dedupStep hashFn db j (pdfText j.pdf_link) := by
  unfold processDoc
  rw [hf]

theorem dedupStep_eq_store {hashFn : String → String} {db : DB} {j : Judgement}
    {t : String} (hf : findJudgementByHash db (hashFn t) = none) :
    dedupStep hashFn db j t =
      { db with judgements := db.judgements.map (setContentRow j t (hashFn t)) } := by
  unfold dedupStep
  rw [hf]

theorem dedupStep_eq_dedup {hashFn : String → String} {db : DB} {j : Judgement}
    {t : String} {other : Judgement}
    (hf : findJudgementByHash db (hashFn t) = some other) :
    dedupStep hashFn db j t =
      { db with cases := db.cases.map (reassignCaseRow j other.id)
                judgements := db.judgements.filter (fun x => x.id != j.id) } := by
  unfold dedupStep
  rw [hf]

theorem findJudgementByHash_none {db : DB} {hsh : String}
    (h : ∀ jm ∈ db.judgements, jm.text_content_hash ≠ some hsh) :
    findJudgementByHash db hsh = none := by
  unfold findJudgementByHash
  rw [List.find?_eq_none]
  intro x hx hpx
  exact h x hx (beq_iff_eq.mp hpx)

theorem findJudgementByHash_facts {db : DB} {hsh : String} {other : Judgement}
    (h : findJudgementByHash db hsh = some other) :
    other.text_content_hash = some hsh ∧ other ∈ db.judgements := by
  unfold findJudgementByHash at h
  have hp := List.find?_some h
  exact ⟨beq_iff_eq.mp (show (other.text_content_hash == some hsh) = true from hp),
    List.mem_of_find?_eq_some h⟩

theorem findJudgementById_unique {db : DB} (hU : UIds db) {row : Judgement}
    (hmem : row ∈ db.judgements) :
    findJudgementById db.judgements row.id = some row := by
  unfold findJudgementById
  refine find?_of_unique hmem (beq_self_eq_true row.id) ?_
  intro b hb hpb
  exact pairwise_key_unique hU hb hmem (beq_iff_eq.mp hpb)

theorem mem_map_setContent_of_ne {l : List Judgement} {y j : Judgement}
    (t hsh : String) (hy : y ∈ l) (hne : y.id ≠ j.id) :
    y ∈ l.map (setContentRow j t hsh) := by
  have he : setContentRow j t hsh y = y := setContentRow_of_ne t hsh hne
  exact he ▸ List.mem_map_of_mem _ hy

theorem mem_map_setContent_self {l : List Judgement} {y j : Judgement}
    (t hsh : String) (hy : y ∈ l) (heq : y.id = j.id) :
    ({ y with text_content := some t, text_content_hash := some hsh } : Judgement) ∈
      l.map (setContentRow j t hsh) := by
  have he := setContentRow_of_eq t hsh heq
  exact he ▸ List.mem_map_of_mem _ hy

theorem mem_filter_ne {l : List Judgement} {y j : Judgement}
    (hy : y ∈ l) (hne : y.id ≠ j.id) :
    y ∈ l.filter (fun x => x.id != j.id) :=
  List.mem_filter.mpr ⟨hy, bne_iff_ne.mpr hne⟩

theorem of_mem_filter_ne {l : List Judgement} {z j : Judgement}
    (hz : z ∈ l.filter (fun x => x.id != j.id)) :
    z ∈ l ∧ z.id ≠ j.id := by
  obtain ⟨hm, hb⟩ := List.mem_filter.mp hz
  exact ⟨hm, bne_iff_ne.mp hb⟩

theorem mem_map_reassign_of_ne {l : List CaseRow} {c : CaseRow} {j : Judgement}
    (oid : Nat) (hc : c ∈ l) (hne : c.judgement_id ≠ j.id) :
    c ∈ l.map (reassignCaseRow j oid) := by
  have he : reassignCaseRow j oid c = c := reassignCaseRow_of_ne oid hne
  exact he ▸ List.mem_map_of_mem _ hc

theorem mem_map_reassign_of_eq {l : List CaseRow} {c : CaseRow} {j : Judgement}
    (oid : Nat) (hc : c ∈ l) (heq : c.judgement_id = j.id) :
    ({ c with judgement_id := oid } : CaseRow) ∈ l.map (reassignCaseRow j oid) := by
  have he := reassignCaseRow_of_eq oid heq
  exact he ▸ List.mem_map_of_mem _ hc

theorem insertByDate_perm (j : Judgement) (l : List Judgement) :
    List.Perm (insertByDate j l) (j :: l) := by
  induction l with
  | nil => exact List.Perm.refl _
  | cons x xs ih =>
    unfold insertByDate
    by_cases hle : dateLe j.date x.date
    · rw [if_pos hle]
    · rw [if_neg hle]
      exact (List.Perm.cons x ih).trans (List.Perm.swap j x xs)

theorem sortByDate_perm (l : List Judgement) : List.Perm (sortByDate l) l := by
  induction l with
  | nil => exact List.Perm.refl _
  | cons x xs ih =>
    unfold sortByDate
    exact (insertByDate_perm x (sortByDate xs)).trans (List.Perm.cons x ih)

theorem pendingIds_nodup {db : DB} (hU : UIds db) : (pendingIds db).Nodup := by
  unfold pendingIds
  have hfil : List.Pairwise (fun x y : Judgement => x.id ≠ y.id)
      (db.judgements.filter (fun j => j.text_content == none)) :=
    List.Pairwise.sublist (List.filter_sublist _) hU
  have hsorted : List.Pairwise (fun x y : Judgement => x.id ≠ y.id)
      (sortByDate (db.judgements.filter (fun j => j.text_content == none))) :=
    ((sortByDate_perm _).pairwise_iff (fun h => h.symm)).mpr hfil
  show List.Pairwise _ _
  rw [List.pairwise_map]
  exact hsorted

theorem mem_pendingIds {db : DB} {i : Nat} (hi : i ∈ pendingIds db) :
    ∃ row ∈ db.judgements, row.id = i ∧ row.text_content = none := by
  unfold pendingIds at hi
  obtain ⟨row, hrow, hid⟩ := List.mem_map.mp hi
  have hmem : row ∈ db.judgements.filter (fun j => j.text_content == none) :=
    (sortByDate_perm _).subset hrow
  obtain ⟨hmem2, hcond⟩ := List.mem_filter.mp hmem
  exact ⟨row, hmem2, hid, beq_iff_eq.mp hcond⟩

theorem pendingIds_mem_of {db : DB} {row : Judgement} (hmem : row ∈ db.judgements)
    (hc : row.text_content = none) : row.id ∈ pendingIds db := by
  unfold pendingIds
  refine List.mem_map_of_mem _ ?_
  exact ((sortByDate_perm _).mem_iff).mpr
    (List.mem_filter.mpr ⟨hmem, beq_iff_eq.mpr hc⟩)

theorem findJudgementByHash_none_iff {db : DB} {hsh : String} :
    findJudgementByHash db hsh = none ↔
      ∀ jm ∈ db.judgements, jm.text_content_hash ≠ some hsh := by
  unfold findJudgementByHash
  rw [List.find?_eq_none]
  constructor
  · intro h jm hm heq
    exact h jm hm (beq_iff_eq.mpr heq)
  · intro h jm hm hp
    exact h jm hm (beq_iff_eq.mp hp)

theorem phase0_step (pdfText hashFn : String → String) (A B : Judgement)
    (t hsh : String) (db0 : DB) (hAB : A.id ≠ B.id)
    (htA : pdfText A.pdf_link = t) (htB : pdfText B.pdf_link = t)
    (hh : hashFn t = hsh) (x : Nat) (l : List Nat) (db : DB)
    (hU : UIds db) (hxnl : x ∉ l)
    (hPend : ∀ i ∈ x :: l, ∃ row ∈ db.judgements, row.id = i ∧
      row.text_content = none ∧ row.text_content_hash = none ∧
      (i ≠ A.id → i ≠ B.id → hashFn (pdfText row.pdf_link) ≠ hsh))
    (hph : Phase0 A B hsh db0 db (x :: l)) :
    Phase0 A B hsh db0 (processDoc pdfText hashFn db x) l ∨
    Phase1 A B t hsh db0 (processDoc pdfText hashFn db x) l ∨
    Phase1 B A t hsh db0 (processDoc pdfText hashFn db x) l := by
  obtain ⟨hA, hB, hAl, hBl, hNoH, hCas⟩ := hph
  obtain ⟨row, hrowmem, hrowid, hrowc, hrowh, hrowne⟩ :=
    hPend x (List.mem_cons_self x l)
  have hfind : findJudgementById db.judgements x = some row := by
    rw [← hrowid]
    exact findJudgementById_unique hU hrowmem
  rw [processDoc_eq_some hfind]
  cases hfh : findJudgementByHash db (hashFn (pdfText row.pdf_link)) with
  | some other =>
    obtain ⟨hoh, homem⟩ := findJudgementByHash_facts hfh
    by_cases hxA : x = A.id
    · have hrA : row = A := pairwise_key_unique hU hrowmem hA (by rw [hrowid, hxA])
      have htx : hashFn (pdfText row.pdf_link) = hsh := by rw [hrA, htA, hh]
      exact absurd (htx ▸ hoh) (hNoH other homem)
    · by_cases hxB : x = B.id
      · have hrB : row = B := pairwise_key_unique hU hrowmem hB (by rw [hrowid, hxB])
        have htx : hashFn (pdfText row.pdf_link) = hsh := by rw [hrB, htB, hh]
        exact absurd (htx ▸ hoh) (hNoH other homem)
      · have hAx : A.id ≠ x := fun h => hxA h.symm
        have hBx : B.id ≠ x := fun h => hxB h.symm
        have hAl2 : A.id ∈ l := by
          rcases List.mem_cons.mp hAl with he | hm
          · exact absurd he hAx
          · exact hm
        have hBl2 : B.id ∈ l := by
          rcases List.mem_cons.mp hBl with he | hm
          · exact absurd he hBx
          · exact hm
        rw [dedupStep_eq_dedup hfh]
        refine Or.inl ⟨?_, ?_, hAl2, hBl2, ?_, ?_⟩
        · exact mem_filter_ne hA (by rw [hrowid]; exact hAx)
        · exact mem_filter_ne hB (by rw [hrowid]; exact hBx)
        · intro jm hjm
          exact hNoH jm (of_mem_filter_ne hjm).1
        · intro c hc hpc
          refine mem_map_reassign_of_ne other.id (hCas c hc hpc) ?_
          rw [hrowid]
          rcases hpc with h | h <;> rw [h]
          · exact hAx
          · exact hBx
  | none =>
    have hNone : ∀ jm ∈ db.judgements,
        jm.text_content_hash ≠ some (hashFn (pdfText row.pdf_link)) :=
      findJudgementByHash_none_iff.mp hfh
    rw [dedupStep_eq_store hfh]
    by_cases hxA : x = A.id
    · have hrA : row = A := pairwise_key_unique hU hrowmem hA (by rw [hrowid, hxA])
      have hBl2 : B.id ∈ l := by
        rcases List.mem_cons.mp hBl with he | hm
        · rw [hxA] at he
          exact absurd he.symm hAB
        · exact hm
      refine Or.inr (Or.inl ⟨?_, ?_, hBl2, ?_, ?_, ?_⟩)
      · have hm := mem_map_setContent_self (l := db.judgements) (j := row)
          (pdfText row.pdf_link) (hashFn (pdfText row.pdf_link)) hA (by rw [hrA])
        have hSurv : SurvRow A t hsh =
            { A with text_content := some (pdfText row.pdf_link),
                     text_content_hash := some (hashFn (pdfText row.pdf_link)) } := by
          unfold SurvRow
          rw [hrA, htA, hh]
        rw [hSurv]
        exact hm
      · exact mem_map_setContent_of_ne _ _ hB
          (by rw [hrowid, hxA]; exact fun h => hAB h.symm)
      · rw [← hxA]
        exact hxnl
      · intro jm hjm hjmh
        obtain ⟨y, hy, rfl⟩ := List.mem_map.mp hjm
        by_cases hyid : y.id = row.id
        · rw [setContentRow_id, hyid, hrowid, hxA]
        · rw [setContentRow_of_ne _ _ hyid] at hjmh
          exact absurd hjmh (hNoH y hy)
      · intro c hc hpc
        exact hCas c hc hpc
    · by_cases hxB : x = B.id
      · have hrB : row = B := pairwise_key_unique hU hrowmem hB (by rw [hrowid, hxB])
        have hAl2 : A.id ∈ l := by
          rcases List.mem_cons.mp hAl with he | hm
          · rw [hxB] at he
            exact absurd he hAB
          · exact hm
        refine Or.inr (Or.inr ⟨?_, ?_, hAl2, ?_, ?_, ?_⟩)
        · have hm := mem_map_setContent_self (l := db.judgements) (j := row)
            (pdfText row.pdf_link) (hashFn (pdfText row.pdf_link)) hB (by rw [hrB])
          have hSurv : SurvRow B t hsh =
              { B with text_content := some (pdfText row.pdf_link),
                       text_content_hash := some (hashFn (pdfText row.pdf_link)) } := by
            unfold SurvRow
            rw [hrB, htB, hh]
          rw [hSurv]
          exact hm
        · exact mem_map_setContent_of_ne _ _ hA
            (by rw [hrowid, hxB]; exact hAB)
        · rw [← hxB]
          exact hxnl
        · intro jm hjm hjmh
          obtain ⟨y, hy, rfl⟩ := List.mem_map.mp hjm
          by_cases hyid : y.id = row.id
          · rw [setContentRow_id, hyid, hrowid, hxB]
          · rw [setContentRow_of_ne _ _ hyid] at hjmh
            exact absurd hjmh (hNoH y hy)
        · intro c hc hpc
          rcases hpc with h | h
          · exact hCas c hc (Or.inr h)
          · exact hCas c hc (Or.inl h)
      · have hAx : A.id ≠ x := fun h => hxA h.symm
        have hBx : B.id ≠ x := fun h => hxB h.symm
        have hAl2 : A.id ∈ l := by
          rcases List.mem_cons.mp hAl with he | hm
          · exact absurd he hAx
          · exact hm
        have hBl2 : B.id ∈ l := by
          rcases List.mem_cons.mp hBl with he | hm
          · exact absurd he hBx
          · exact hm
        refine Or.inl ⟨?_, ?_, hAl2, hBl2, ?_, ?_⟩
        · exact mem_map_setContent_of_ne _ _ hA (by rw [hrowid]; exact hAx)
        · exact mem_map_setContent_of_ne _ _ hB (by rw [hrowid]; exact hBx)
        · intro jm hjm hjmh
          obtain ⟨y, hy, rfl⟩ := List.mem_map.mp hjm
          by_cases hyid : y.id = row.id
          · rw [setContentRow_of_eq _ _ hyid] at hjmh
            have hinj : hashFn (pdfText row.pdf_link) = hsh := Option.some.inj hjmh
            exact absurd hinj (hrowne hxA hxB)
          · rw [setContentRow_of_ne _ _ hyid] at hjmh
            exact absurd hjmh (hNoH y hy)
        · intro c hc hpc
          exact hCas c hc hpc

theorem phase1_step (pdfText hashFn : String → String) (A B S L : Judgement)
    (t hsh : String) (db0 : DB)
    (hSLset : (S = A ∧ L = B) ∨ (S = B ∧ L = A)) (hAB : A.id ≠ B.id)
    (htA : pdfText A.pdf_link = t) (htB : pdfText B.pdf_link = t)
    (hh : hashFn t = hsh) (x : Nat) (l : List Nat) (db : DB)
    (hU : UIds db) (hxnl : x ∉ l)
    (hPend : ∀ i ∈ x :: l, ∃ row ∈ db.judgements, row.id = i ∧
      row.text_content = none ∧ row.text_content_hash = none ∧
      (i ≠ A.id → i ≠ B.id → hashFn (pdfText row.pdf_link) ≠ hsh))
    (hph : Phase1 S L t hsh db0 db (x :: l)) :
    Phase1 S L t hsh db0 (processDoc pdfText hashFn db x) l ∨
    Phase2 S L t hsh db0 (processDoc pdfText hashFn db x) l := by
  obtain ⟨hS, hL, hLl, hSl, honly, hCas⟩ := hph
  obtain ⟨row, hrowmem, hrowid, hrowc, hrowh, hrowne⟩ :=
    hPend x (List.mem_cons_self x l)
  have hSLid : S.id ≠ L.id := by
    rcases hSLset with ⟨rfl, rfl⟩ | ⟨rfl, rfl⟩
    · exact hAB
    · exact hAB.symm
  have htL : pdfText L.pdf_link = t := by
    rcases hSLset with ⟨rfl, rfl⟩ | ⟨rfl, rfl⟩
    · exact htB
    · exact htA
  have hxS : x ≠ S.id := fun h => hSl (by rw [h]; exact List.mem_cons_self _ _)
  have hSl2 : S.id ∉ l := fun h => hSl (List.mem_cons_of_mem x h)
  have hfind : findJudgementById db.judgements x = some row := by
    rw [← hrowid]
    exact findJudgementById_unique hU hrowmem
  rw [processDoc_eq_some hfind]
  by_cases hxL : x = L.id
  · -- the loser is processed now: its text hashes to the survivor's hash
    have hrL : row = L := pairwise_key_unique hU hrowmem hL (by rw [hrowid, hxL])
    have htx : hashFn (pdfText row.pdf_link) = hsh := by rw [hrL, htL, hh]
    cases hfh : findJudgementByHash db (hashFn (pdfText row.pdf_link)) with
    | none =>
      have hNone := findJudgementByHash_none_iff.mp hfh
      exact absurd (by rw [htx]; rfl) (hNone (SurvRow S t hsh) hS)
    | some other =>
      obtain ⟨hoh, homem⟩ := findJudgementByHash_facts hfh
      have hoid : other.id = S.id := honly other homem (by rw [← htx]; exact hoh)
      rw [dedupStep_eq_dedup hfh]
      refine Or.inr ⟨?_, hSl2, ?_, ?_, ?_, ?_⟩
      · exact mem_filter_ne hS (by rw [hrowid, hxL]; exact hSLid)
      · rw [← hxL]
        exact hxnl
      · intro jm hjm
        have hne := (of_mem_filter_ne hjm).2
        rw [hrowid, hxL] at hne
        exact hne
      · intro jm hjm
        exact honly jm (of_mem_filter_ne hjm).1
      · intro c hc hpc
        rcases hpc with hcs | hcl
        · have hcne : c.judgement_id ≠ row.id := by
            rw [hcs, hrowid, hxL]
            exact hSLid
          have hmm := mem_map_reassign_of_ne other.id (hCas c hc (Or.inl hcs)) hcne
          rw [CaseRow_set_self hcs]
          exact hmm
        · have hceq : c.judgement_id = row.id := by rw [hcl, hrowid, hxL]
          have hmm := mem_map_reassign_of_eq other.id (hCas c hc (Or.inr hcl)) hceq
          rw [show ({ c with judgement_id := S.id } : CaseRow) =
            { c with judgement_id := other.id } from by rw [hoid]]
          exact hmm
  · -- some other pending document is processed: the pair is untouched
    have hLx : L.id ≠ x := fun h => hxL h.symm
    have hSx : S.id ≠ x := fun h => hxS h.symm
    have hLl2 : L.id ∈ l := by
      rcases List.mem_cons.mp hLl with he | hm
      · exact absurd he hLx
      · exact hm
    have hxne : hashFn (pdfText row.pdf_link) ≠ hsh := by
      rcases hSLset with ⟨rfl, rfl⟩ | ⟨rfl, rfl⟩
      · exact hrowne hxS hxL
      · exact hrowne hxL hxS
    cases hfh : findJudgementByHash db (hashFn (pdfText row.pdf_link)) with
    | none =>
      rw [dedupStep_eq_store hfh]
      refine Or.inl ⟨?_, ?_, hLl2, hSl2, ?_, ?_⟩
      · exact mem_map_setContent_of_ne _ _ hS (by rw [hrowid]; exact hSx)
      · exact mem_map_setContent_of_ne _ _ hL (by rw [hrowid]; exact hLx)
      · intro jm hjm hjmh
        obtain ⟨y, hy, rfl⟩ := List.mem_map.mp hjm
        by_cases hyid : y.id = row.id
        · rw [setContentRow_of_eq _ _ hyid] at hjmh
          exact absurd (Option.some.inj hjmh) hxne
        · rw [setContentRow_of_ne _ _ hyid] at hjmh
          rw [setContentRow_of_ne _ _ hyid]
          exact honly y hy hjmh
      · intro c hc hpc
        exact hCas c hc hpc
    | some other =>
      obtain ⟨hoh, homem⟩ := findJudgementByHash_facts hfh
      rw [dedupStep_eq_dedup hfh]
      refine Or.inl ⟨?_, ?_, hLl2, hSl2, ?_, ?_⟩
      · exact mem_filter_ne hS (by rw [hrowid]; exact hSx)
      · exact mem_filter_ne hL (by rw [hrowid]; exact hLx)
      · intro jm hjm
        exact honly jm (of_mem_filter_ne hjm).1
      · intro c hc hpc
        refine mem_map_reassign_of_ne other.id (hCas c hc hpc) ?_
        rw [hrowid]
        rcases hpc with h | h <;> rw [h]
        · exact hSx
        · exact hLx

theorem phase2_step (pdfText hashFn : String → String) (A B S L : Judgement)
    (t hsh : String) (db0 : DB)
    (hSLset : (S = A ∧ L = B) ∨ (S = B ∧ L = A)) (hAB : A.id ≠ B.id)
    (hh : hashFn t = hsh) (x : Nat) (l : List Nat) (db : DB)
    (hU : UIds db) (hxnl : x ∉ l)
    (hPend : ∀ i ∈ x :: l, ∃ row ∈ db.judgements, row.id = i ∧
      row.text_content = none ∧ row.text_content_hash = none ∧
      (i ≠ A.id → i ≠ B.id → hashFn (pdfText row.pdf_link) ≠ hsh))
    (hph : Phase2 S L t hsh db0 db (x :: l)) :
    Phase2 S L t hsh db0 (processDoc pdfText hashFn db x) l := by
  obtain ⟨hS, hSl, hLl, hgone, honly, hCas⟩ := hph
  obtain ⟨row, hrowmem, hrowid, hrowc, hrowh, hrowne⟩ :=
    hPend x (List.mem_cons_self x l)
  have hxS : x ≠ S.id := fun h => hSl (by rw [h]; exact List.mem_cons_self _ _)
  have hxL : x ≠ L.id := fun h => hLl (by rw [h]; exact List.mem_cons_self _ _)
  have hSx : S.id ≠ x := fun h => hxS h.symm
  have hLx : L.id ≠ x := fun h => hxL h.symm
  have hSl2 : S.id ∉ l := fun h => hSl (List.mem_cons_of_mem x h)
  have hLl2 : L.id ∉ l := fun h => hLl (List.mem_cons_of_mem x h)
  have hxne : hashFn (pdfText row.pdf_link) ≠ hsh := by
    rcases hSLset with ⟨rfl, rfl⟩ | ⟨rfl, rfl⟩
    · exact hrowne hxS hxL
    · exact hrowne hxL hxS
  have hfind : findJudgementById db.judgements x = some row := by
    rw [← hrowid]
    exact findJudgementById_unique hU hrowmem
  rw [processDoc_eq_some hfind]
  cases hfh : findJudgementByHash db (hashFn (pdfText row.pdf_link)) with
  | none =>
    rw [dedupStep_eq_store hfh]
    refine ⟨?_, hSl2, hLl2, ?_, ?_, ?_⟩
    · exact mem_map_setContent_of_ne _ _ hS (by rw [hrowid]; exact hSx)
    · intro jm hjm
      obtain ⟨y, hy, rfl⟩ := List.mem_map.mp hjm
      rw [setContentRow_id]
      exact hgone y hy
    · intro jm hjm hjmh
      obtain ⟨y, hy, rfl⟩ := List.mem_map.mp hjm
      by_cases hyid : y.id = row.id
      · rw [setContentRow_of_eq _ _ hyid] at hjmh
        exact absurd (Option.some.inj hjmh) hxne
      · rw [setContentRow_of_ne _ _ hyid] at hjmh
        rw [setContentRow_of_ne _ _ hyid]
        exact honly y hy hjmh
    · intro c hc hpc
      exact hCas c hc hpc
  | some other =>
    obtain ⟨hoh, homem⟩ := findJudgementByHash_facts hfh
    rw [dedupStep_eq_dedup hfh]
    refine ⟨?_, hSl2, hLl2, ?_, ?_, ?_⟩
    · exact mem_filter_ne hS (by rw [hrowid]; exact hSx)
    · intro jm hjm
      exact hgone jm (of_mem_filter_ne hjm).1
    · intro jm hjm
      exact honly jm (of_mem_filter_ne hjm).1
    · intro c hc hpc
      refine mem_map_reassign_of_ne other.id (hCas c hc hpc) ?_
      show S.id ≠ row.id
      rw [hrowid]
      exact hSx

theorem popBase_step (pdfText hashFn : String → String) (aid bid : Nat)
    (hsh : String) (x : Nat) (l : List Nat) (db : DB)
    (hU : UIds db) (hND : NoDangling db)
    (hP : PendOK pdfText hashFn aid bid hsh (x :: l) db) :
    UIds (processDoc pdfText hashFn db x) ∧
    NoDangling (processDoc pdfText hashFn db x) ∧
    PendOK pdfText hashFn aid bid hsh l (processDoc pdfText hashFn db x) := by
  obtain ⟨hNdl, hPend⟩ := hP
  obtain ⟨row, hrowmem, hrowid, hrowc, hrowh, hrowne⟩ :=
    hPend x (List.mem_cons_self x l)
  have hxnl : x ∉ l := (List.nodup_cons.mp hNdl).1
  have hNdl2 : l.Nodup := (List.nodup_cons.mp hNdl).2
  have hfind : findJudgementById db.judgements x = some row := by
    rw [← hrowid]
    exact findJudgementById_unique hU hrowmem
  rw [processDoc_eq_some hfind]
  cases hfh : findJudgementByHash db (hashFn (pdfText row.pdf_link)) with
  | none =>
    rw [dedupStep_eq_store hfh]
    refine ⟨?_, ?_, hNdl2, ?_⟩
    · show List.Pairwise _ _
      rw [List.pairwise_map]
      exact hU.imp (fun hab => by
        rw [setContentRow_id, setContentRow_id]
        exact hab)
    · intro c hc
      obtain ⟨jm, hjm, hjid⟩ := hND c hc
      exact ⟨setContentRow row (pdfText row.pdf_link) (hashFn (pdfText row.pdf_link)) jm,
        List.mem_map_of_mem _ hjm, by rw [setContentRow_id]; exact hjid⟩
    · intro i hi
      obtain ⟨ri, hri, hriid, hric, hrih, hrine⟩ := hPend i (List.mem_cons_of_mem x hi)
      have hne : ri.id ≠ row.id := by
        rw [hriid, hrowid]
        intro he
        exact hxnl (he ▸ hi)
      exact ⟨ri, mem_map_setContent_of_ne _ _ hri hne, hriid, hric, hrih, hrine⟩
  | some other =>
    obtain ⟨hoh, homem⟩ := findJudgementByHash_facts hfh
    have honr : other.id ≠ row.id := by
      intro he
      have heq : other = row := pairwise_key_unique hU homem hrowmem he
      rw [heq, hrowh] at hoh
      cases hoh
    rw [dedupStep_eq_dedup hfh]
    refine ⟨?_, ?_, hNdl2, ?_⟩
    · exact List.Pairwise.sublist (List.filter_sublist _) hU
    · intro c hc
      obtain ⟨c0, hc0, rfl⟩ := List.mem_map.mp hc
      by_cases hcj : c0.judgement_id = row.id
      · rw [reassignCaseRow_of_eq _ hcj]
        exact ⟨other, mem_filter_ne homem honr, rfl⟩
      · rw [reassignCaseRow_of_ne _ hcj]
        obtain ⟨jm, hjm, hjid⟩ := hND c0 hc0
        refine ⟨jm, mem_filter_ne hjm ?_, hjid⟩
        rw [hjid]
        exact hcj
    · intro i hi
      obtain ⟨ri, hri, hriid, hric, hrih, hrine⟩ := hPend i (List.mem_cons_of_mem x hi)
      have hne : ri.id ≠ row.id := by
        rw [hriid, hrowid]
        intro he
        exact hxnl (he ▸ hi)
      exact ⟨ri, mem_filter_ne hri hne, hriid, hric, hrih, hrine⟩

theorem popStep (pdfText hashFn : String → String) (A B : Judgement)
    (t hsh : String) (db0 : DB) (hAB : A.id ≠ B.id)
    (htA : pdfText A.pdf_link = t) (htB : pdfText B.pdf_link = t)
    (hh : hashFn t = hsh) (x : Nat) (l : List Nat) (db : DB)
    (inv : PopInv pdfText hashFn A B t hsh db0 (x :: l) db) :
    PopInv pdfText hashFn A B t hsh db0 l (processDoc pdfText hashFn db x) := by
  obtain ⟨hU, hND, hP, hPhase⟩ := inv
  obtain ⟨hU2, hND2, hP2⟩ := popBase_step pdfText hashFn A.id B.id hsh x l db hU hND hP
  refine ⟨hU2, hND2, hP2, ?_⟩
  have hxnl : x ∉ l := (List.nodup_cons.mp hP.1).1
  rcases hPhase with h0 | h1 | h1s | h2 | h2s
  · rcases phase0_step pdfText hashFn A B t hsh db0 hAB htA htB hh x l db hU hxnl
      hP.2 h0 with q0 | q1 | q1s
    · exact Or.inl q0
    · exact Or.inr (Or.inl q1)
    · exact Or.inr (Or.inr (Or.inl q1s))
  · exact (phase1_step pdfText hashFn A B A B t hsh db0 (Or.inl ⟨rfl, rfl⟩) hAB htA htB
      hh x l db hU hxnl hP.2 h1).elim (fun q => Or.inr (Or.inl q))
      (fun q => Or.inr (Or.inr (Or.inr (Or.inl q))))
  · exact (phase1_step pdfText hashFn A B B A t hsh db0 (Or.inr ⟨rfl, rfl⟩) hAB htA htB
      hh x l db hU hxnl hP.2 h1s).elim (fun q => Or.inr (Or.inr (Or.inl q)))
      (fun q => Or.inr (Or.inr (Or.inr (Or.inr q))))
  · exact Or.inr (Or.inr (Or.inr (Or.inl
      (phase2_step pdfText hashFn A B A B t hsh db0 (Or.inl ⟨rfl, rfl⟩) hAB hh
        x l db hU hxnl hP.2 h2))))
  · exact Or.inr (Or.inr (Or.inr (Or.inr
      (phase2_step pdfText hashFn A B B A t hsh db0 (Or.inr ⟨rfl, rfl⟩) hAB hh
        x l db hU hxnl hP.2 h2s))))

theorem popRun (pdfText hashFn : String → String) (A B : Judgement)
    (t hsh : String) (db0 : DB) (hAB : A.id ≠ B.id)
    (htA : pdfText A.pdf_link = t) (htB : pdfText B.pdf_link = t)
    (hh : hashFn t = hsh) :
    ∀ (k : Nat) (l : List Nat) (db : DB),
      PopInv pdfText hashFn A B t hsh db0 l db →
      PopInv pdfText hashFn A B t hsh db0 (l.drop k)
        ((l.take k).foldl (fun d x => processDoc pdfText hashFn d x) db) := by
  intro k
  induction k with
  | zero =>
    intro l db hinv
    simpa using hinv
  | succ k ih =>
    intro l db hinv
    cases l with
    | nil => simpa using hinv
    | cons x l2 =>
      rw [List.take_succ_cons, List.foldl_cons, List.drop_succ_cons]
      exact ih l2 _ (popStep pdfText hashFn A B t hsh db0 hAB htA htB hh x l2 db hinv)

theorem popInit (pdfText hashFn : String → String) (A B : Judgement)
    (t hsh : String) (db : DB)
    (hA : A ∈ db.judgements) (hB : B ∈ db.judgements)
    (hAc : A.text_content = none) (hBc : B.text_content = none)
    (hU : UIds db) (hND : NoDangling db)
    (hhn : ∀ jm ∈ db.judgements, jm.text_content = none →
      jm.text_content_hash = none)
    (hnoh : ∀ jm ∈ db.judgements, jm.text_content_hash ≠ some hsh)
    (hother : ∀ jm ∈ db.judgements, jm.id ≠ A.id → jm.id ≠ B.id →
      jm.text_content = none → hashFn (pdfText jm.pdf_link) ≠ hsh) :
    PopInv pdfText hashFn A B t hsh db (pendingIds db) db := by
  refine ⟨hU, hND, ⟨pendingIds_nodup hU, ?_⟩,
    Or.inl ⟨hA, hB, ?_, ?_, hnoh, fun c hc _ => hc⟩⟩
  · intro i hi
    obtain ⟨row, hrm, hrid, hrc⟩ := mem_pendingIds hi
    refine ⟨row, hrm, hrid, hrc, hhn row hrm hrc, ?_⟩
    intro hia hib
    refine hother row hrm ?_ ?_ hrc
    · rw [hrid]
      exact hia
    · rw [hrid]
      exact hib
  · exact pendingIds_mem_of hA hAc
  · exact pendingIds_mem_of hB hBc

theorem popFinal (pdfText hashFn : String → String) (A B : Judgement)
    (t hsh : String) (db0 dbF : DB)
    (hinv : PopInv pdfText hashFn A B t hsh db0 [] dbF) :
    Survives db0 dbF A B t hsh ∨ Survives db0 dbF B A t hsh := by
  obtain ⟨-, -, -, hPhase⟩ := hinv
  rcases hPhase with h0 | h1 | h1s | h2 | h2s
  · exact absurd h0.2.2.1 (List.not_mem_nil _)
  · exact absurd h1.2.2.1 (List.not_mem_nil _)
  · exact absurd h1s.2.2.1 (List.not_mem_nil _)
  · obtain ⟨hS, -, -, hgone, -, hCas⟩ := h2
    exact Or.inl ⟨⟨SurvRow A t hsh, hS, rfl, rfl, rfl, rfl⟩, hgone, hCas⟩
  · obtain ⟨hS, -, -, hgone, -, hCas⟩ := h2s
    exact Or.inr ⟨⟨SurvRow B t hsh, hS, rfl, rfl, rfl, rfl⟩, hgone, hCas⟩

/-- C2: for two Judgements with distinct reference URLs and distinct keys,
both lacking content, whose extracted text is byte-identical (and with no
third judgement carrying or producing the same hash), the content-population
pass leaves exactly one of the two in the store, carrying the text and its
hash; every Case either of them owned is owned by that survivor; the other
row no longer exists.  Moreover at every per-document commit boundary every
Case references a live Judgement: the reassignments and the deletion are
never visible separately. -/
theorem C2_content_dedup (pdfText hashFn : String → String) (A B : Judgement)
    (t hsh : String) (db : DB)
    (hA : A ∈ db.judgements) (hB : B ∈ db.judgements)
    (hlink : A.pdf_link ≠ B.pdf_link) (hid : A.id ≠ B.id)
    (hAc : A.text_content = none) (hBc : B.text_content = none)
    (htA : pdfText A.pdf_link = t) (htB : pdfText B.pdf_link = t)
    (hh : hashFn t = hsh)
    (hU : UIds db) (hND : NoDangling db)
    (hhn : ∀ jm ∈ db.judgements, jm.text_content = none →
      jm.text_content_hash = none)
    (hnoh : ∀ jm ∈ db.judgements, jm.text_content_hash ≠ some hsh)
    (hother : ∀ jm ∈ db.judgements, jm.id ≠ A.id → jm.id ≠ B.id →
      jm.text_content = none → hashFn (pdfText jm.pdf_link) ≠ hsh) :
    (Survives db (populate_contents pdfText hashFn db) A B t hsh ∨
     Survives db (populate_contents pdfText hashFn db) B A t hsh) ∧
    ∀ k, NoDangling (popStateAt pdfText hashFn db k) := by
  have hinit := popInit pdfText hashFn A B t hsh db hA hB hAc hBc hU hND hhn hnoh hother
  constructor
  · have hrun := popRun pdfText hashFn A B t hsh db hid htA htB hh
      (pendingIds db).length (pendingIds db) db hinit
    rw [List.take_length, List.drop_length] at hrun
    exact popFinal pdfText hashFn A B t hsh db _ hrun
  · intro k
    exact (popRun pdfText hashFn A B t hsh db hid htA htB hh k
      (pendingIds db) db hinit).2.1

/-- C2 witness: the dedup theorem applied to the two-judgement store whose
URLs extract the same text, each owning one case. -/
theorem C2_witness :
    jmtU1 ∈ dbPair.judgements ∧ jmtU1.pdf_link ≠ jmtU2.pdf_link ∧
    (((Survives dbPair (populate_contents (fun _ => "T") (fun s => s) dbPair)
        jmtU1 jmtU2 "T" "T") ∨
      (Survives dbPair (populate_contents (fun _ => "T") (fun s => s) dbPair)
        jmtU2 jmtU1 "T" "T")) ∧
     ∀ k, NoDangling (popStateAt (fun _ => "T") (fun s => s) dbPair k)) := by
  have hU : UIds dbPair := by
    show List.Pairwise _ [jmtU1, jmtU2]
    refine List.Pairwise.cons ?_ (List.pairwise_singleton _ _)
    intro y hy
    rw [List.mem_singleton] at hy
    subst hy
    decide
  refine ⟨by decide, by decide, ?_⟩
  exact C2_content_dedup (fun _ => "T") (fun s => s) jmtU1 jmtU2 "T" "T" dbPair
    (by decide) (by decide) (by decide) (by decide) rfl rfl rfl rfl rfl
    hU (by unfold NoDangling; decide) (by decide) (by decide) (by decide)

end Courtlight
